import Mathlib

/-!
Verification of the MSFS-Startup-Manager process lifecycle monitor.

This development is a shallow embedding of the two monitor variants of the
repository, `src/process_monitor.py` (class `ProcessMonitor`) and
`src/per_entry_process_manager.py` (class `PerEntryProcessManager`), together
with the `on_simulator_stopped` wiring in `src/main.py`.

Modelling conventions:
- Python dicts (which preserve insertion order) are association lists
  `List (String × α)` with `dictInsert` / `dictGet?` / `dictErase` mirroring
  item assignment, lookup and `del`.
- A poll tick's view of the OS is passed in explicitly: the process table is a
  `List ProcRecord` (the fully-enumerated, exception-filtered output of
  `psutil.process_iter(['pid','name','exe'])`; processes that vanish or are
  access-denied during enumeration are already absent, matching the
  `except (NoSuchProcess, AccessDenied, ZombieProcess): continue` guards),
  the filesystem is the list of existing paths (for `os.path.exists`), and
  per-pid liveness / termination behaviour is an explicit oracle function.
- Qt signal emissions and callback invocations are recorded as events/actions
  in the order the Python code performs them.
-/

namespace MSM

/-! ### Association-list model of Python dicts -/

/-- Lookup, `d[k]` / `d.get(k)`. -/
def dictGet? {α : Type} (k : String) : List (String × α) → Option α
  | [] => none
  | (k', v) :: rest => if k' = k then some v else dictGet? k rest

/-- Lookup with default, `d.get(k, dflt)`. -/
def dictGetD {α : Type} (k : String) (l : List (String × α)) (dflt : α) : α :=
  (dictGet? k l).getD dflt

/-- Membership test, `k in d`. -/
def dictMem {α : Type} (k : String) (l : List (String × α)) : Bool :=
  l.any (fun e => e.1 == k)

/-- Item assignment, `d[k] = v`: replaces in place if the key is present
(Python dicts keep the original position), otherwise appends. -/
def dictInsert {α : Type} (k : String) (v : α) : List (String × α) → List (String × α)
  | [] => [(k, v)]
  | (k', v') :: rest => if k' = k then (k, v) :: rest else (k', v') :: dictInsert k v rest

/-- Deletion, `del d[k]`. -/
def dictErase {α : Type} (k : String) : List (String × α) → List (String × α)
  | [] => []
  | (k', v') :: rest => if k' = k then rest else (k', v') :: dictErase k rest

/-! ### Path helpers: `os.path.basename` / `os.path.normpath(...).lower()`

The application targets Windows, so `os.path` is `ntpath`: both separators
are recognized and `normpath` canonicalizes to backslashes, drops `.` and
empty components and collapses `..`.  (Drive-letter and UNC-root special
cases of `ntpath.normpath` are not modelled; the monitor always feeds both
sides of every comparison through the same function, so the comparisons
proved about are unaffected.) -/

/-- Split a string into components at either path separator (character-level
model of ntpath's separator handling). -/
def pathSegs : List Char → List (List Char)
  | [] => [[]]
  | c :: rest =>
    let r := pathSegs rest
    if c = '/' ∨ c = '\\' then [] :: r
    else
      match r with
      | [] => [[c]]
      | h :: t => (c :: h) :: t

/-- Model of `os.path.basename`: the part after the last separator. -/
def basename (p : String) : String :=
  String.mk ((pathSegs p.data).getLastD [])

/-- Model of `str.lower` for the ASCII path strings the monitor
compares. -/
def strLower (s : String) : String :=
  String.mk (s.data.map Char.toLower)

/-- Component collapse used by `normpath`: drop empty and `.` components,
let `..` cancel the previous component. -/
def normpathComps (comps : List String) : List String :=
  (comps.foldl (fun acc c =>
    if c = "" || c = "." then acc
    else if c = ".." then
      match acc with
      | [] => [".."]
      | a :: rest => if a = ".." then c :: a :: rest else rest
    else c :: acc) []).reverse

/-- Model of `os.path.normpath` (ntpath flavour, plain paths). -/
def normpath (p : String) : String :=
  let comps := normpathComps ((pathSegs p.data).map String.mk)
  if comps.isEmpty then "." else "\\".intercalate comps

/-- The normalization the scanner applies to both sides of every path
comparison: `os.path.normpath(x).lower()`
(src/process_monitor.py lines 259 and 280). -/
def normLower (p : String) : String :=
  strLower (normpath p)

/-! ### Data model of `src/process_monitor.py` -/

/-- One row of `psutil.process_iter(['pid','name','exe'])`: `proc.info`.
`exe` is `none` when psutil reports `None` (unresolvable executable path);
the Python code tests it with truthiness, so the empty string behaves like
`None` as well. -/
structure ProcRecord where
  pid : Nat
  name : String
  exe : Option String
deriving DecidableEq

/-- Class `ProcessInfo` (src/process_monitor.py lines 10-15); the
`start_time` wall-clock field is irrelevant to every claim and omitted. -/
structure ProcessInfo where
  pid : Nat
  name : String
  exe_path : String
deriving DecidableEq

/-- The Qt signals of `ProcessMonitor` (lines 22-25), recorded in emission
order. -/
inductive Event
  | simStarted (name : String)
  | simStopped (name : String)
  | addonStarted (addon : String) (pid : Nat)
  | addonStopped (addon : String) (pid : Nat)
deriving DecidableEq

/-- `self.addon_processes : addon_name -> list of ProcessInfo`. -/
def AddonMap : Type := List (String × List ProcessInfo)

instance : DecidableEq AddonMap := by unfold AddonMap; infer_instance

/-- `self.sim_processes : sim_name -> ProcessInfo`. -/
def SimMap : Type := List (String × ProcessInfo)

instance : DecidableEq SimMap := by unfold SimMap; infer_instance

/-- The pids currently tracked for one addon (`current_pids` at line 262). -/
def trackedPids (addon : String) (st : AddonMap) : List Nat :=
  (dictGetD addon st []).map (fun p => p.pid)

/-- Python `proc_exe or exe_path` (line 292): falls back to the registered
path when the process's exe is `None` or empty. -/
def exeOrDefault (exe : Option String) (dflt : String) : String :=
  match exe with
  | some s => if s = "" then dflt else s
  | none => dflt

/-! ### `ProcessMonitor._scan_for_addon_processes` (lines 253-303) -/

/-- The per-record body of the scan loop.  Mirrors, in order: the
already-tracked-pid skip (line 270), the name mismatch skip (line 274), the
truthiness test on `proc_exe` with the normalized path comparison
(lines 278-281), the name-only fallback when the exe is unresolvable
(lines 283-286), and the append plus `addon_started` emission
(lines 288-300).  `current_pids` is computed once before the loop, exactly
as in the source. -/
def scanLoop (addon exe_name exe_path_norm exe_path : String)
    (current_pids : List Nat) :
    List ProcRecord → AddonMap → List Event → AddonMap × List Event
  | [], st, evs => (st, evs)
  | r :: rest, st, evs =>
    if r.pid ∈ current_pids then
      scanLoop addon exe_name exe_path_norm exe_path current_pids rest st evs
    else if r.name ≠ exe_name then
      scanLoop addon exe_name exe_path_norm exe_path current_pids rest st evs
    else
      let pexe := r.exe.getD ""
      if pexe ≠ "" then
        if normLower pexe ≠ exe_path_norm then
          scanLoop addon exe_name exe_path_norm exe_path current_pids rest st evs
        else
          let info : ProcessInfo :=
            { pid := r.pid, name := r.name, exe_path := exeOrDefault r.exe exe_path }
          let st' := dictInsert addon (dictGetD addon st [] ++ [info]) st
          scanLoop addon exe_name exe_path_norm exe_path current_pids rest st'
            (evs ++ [Event.addonStarted addon r.pid])
      else
        let info : ProcessInfo :=
          { pid := r.pid, name := r.name, exe_path := exeOrDefault r.exe exe_path }
        let st' := dictInsert addon (dictGetD addon st [] ++ [info]) st
        scanLoop addon exe_name exe_path_norm exe_path current_pids rest st'
          (evs ++ [Event.addonStarted addon r.pid])

/-- `ProcessMonitor._scan_for_addon_processes(addon_name, exe_path)`.
Returns the updated `addon_processes` map and the emitted `addon_started`
events.  The scan does nothing at all when the registered path does not
exist on disk (`if not os.path.exists(exe_path): return`, line 255). -/
def scanForAddonProcesses (fs : List String) (snap : List ProcRecord)
    (addon exe_path : String) (st : AddonMap) : AddonMap × List Event :=
  if exe_path ∈ fs then
    scanLoop addon (basename exe_path) (normLower exe_path) exe_path
      (trackedPids addon st) snap st []
  else (st, [])

/-! ### `ProcessMonitor._check_addon_processes` (lines 232-251) -/

/-- Full addon pass of one tick: scan every registered path in registration
order, then retire pids that are no longer running, emitting `addon_stopped`
per retired pid (`_is_process_running` is modelled by membership in
`alivePids`; `NoSuchProcess`/`AccessDenied` both yield `False` there). -/
def checkAddonProcesses (fs : List String) (snap : List ProcRecord)
    (alivePids : List Nat) (tracked : List (String × String)) (st : AddonMap) :
    AddonMap × List Event :=
  let scanned := tracked.foldl (fun (acc : AddonMap × List Event) t =>
    let r := scanForAddonProcesses fs snap t.1 t.2 acc.1
    (r.1, acc.2 ++ r.2)) (st, [])
  let evs2 := scanned.1.foldl (fun acc e =>
    acc ++ (e.2.filter (fun p => p.pid ∉ alivePids)).map
      (fun p => Event.addonStopped e.1 p.pid)) []
  let st2 := scanned.1.map (fun e => (e.1, e.2.filter (fun p => p.pid ∈ alivePids)))
  (st2, scanned.2 ++ evs2)

/-! ### `ProcessMonitor.terminate_addon_processes` (lines 99-151) -/

/-- Abstract behaviour of one pid under the graceful-then-forced procedure;
each constructor names the branch of the source it drives. -/
inductive TermOutcome
  /-- `except (psutil.NoSuchProcess, psutil.AccessDenied)` (line 141). -/
  | gone
  /-- `process.is_running()` is false on entry: already terminated (line 136). -/
  | notRunning
  /-- `terminate()` then `wait(timeout=5.0)` returns (line 121). -/
  | graceful
  /-- `wait` raises `TimeoutExpired` but the recheck `is_running()` is false
  (line 125 guard fails), so no kill is attempted. -/
  | timeoutThenExited
  /-- timeout, still running, `kill()`, `wait(timeout=2.0)` returns (line 129). -/
  | forceKilled
  /-- timeout, still running, `kill()`, second `wait` also times out:
  `continue` (line 133) skips the `processes_to_remove.append`. -/
  | killFailed
deriving DecidableEq

/-- Outcomes on which `terminated_count` is incremented (line 135). -/
def termSuccess : TermOutcome → Bool
  | .graceful => true
  | .timeoutThenExited => true
  | .forceKilled => true
  | _ => false

/-- One iteration of the `for process_info in self.addon_processes[...]`
loop: accumulates `(terminated_count, processes_to_remove)`. -/
def termStep (o : Nat → TermOutcome) (acc : Nat × List ProcessInfo)
    (p : ProcessInfo) : Nat × List ProcessInfo :=
  match o p.pid with
  | .gone => (acc.1, acc.2 ++ [p])
  | .notRunning => (acc.1, acc.2 ++ [p])
  | .graceful => (acc.1 + 1, acc.2 ++ [p])
  | .timeoutThenExited => (acc.1 + 1, acc.2 ++ [p])
  | .forceKilled => (acc.1 + 1, acc.2 ++ [p])
  | .killFailed => acc

/-- `ProcessMonitor.terminate_addon_processes(addon_name)`: returns the
updated map and `terminated_count`.  The final `list.remove` loop
(lines 146-148) removes the first occurrence of each collected item, which
`List.erase` reproduces. -/
def terminateAddonProcesses (o : Nat → TermOutcome) (addon : String)
    (st : AddonMap) : AddonMap × Nat :=
  match dictGet? addon st with
  | none => (st, 0)
  | some procs =>
    let folded := procs.foldl (termStep o) (0, [])
    let remaining := folded.2.foldl (fun l p => l.erase p) procs
    (dictInsert addon remaining st, folded.1)

/-! ### `ProcessMonitor._check_simulator_processes` (lines 195-230) -/

/-- The first loop of `_check_simulator_processes`: walk the snapshot,
collect matching processes into `current_sim_processes` (keyed by name, so a
later pid of the same name overwrites the entry), and for names not yet in
`self.sim_processes` insert them and emit `sim_started` — at most once per
name, because the insertion happens during the walk. -/
def simScanLoop (execs : List String) :
    List ProcRecord → SimMap → SimMap → List Event → SimMap × SimMap × List Event
  | [], current, simProcs, evs => (current, simProcs, evs)
  | r :: rest, current, simProcs, evs =>
    if r.name ∈ execs then
      let info : ProcessInfo := { pid := r.pid, name := r.name, exe_path := r.exe.getD "" }
      let current' := dictInsert r.name info current
      if dictMem r.name simProcs then
        simScanLoop execs rest current' simProcs evs
      else
        simScanLoop execs rest current' (dictInsert r.name info simProcs)
          (evs ++ [Event.simStarted r.name])
    else
      simScanLoop execs rest current simProcs evs

/-- `ProcessMonitor._check_simulator_processes`: after the snapshot walk, the
names still in `sim_processes` but absent from `current_sim_processes` are
collected (lines 221-224), a `sim_stopped` is emitted for each, and they are
deleted (lines 226-230). -/
def checkSimulatorProcesses (snap : List ProcRecord) (execs : List String)
    (simProcs : SimMap) : SimMap × List Event :=
  let scanned := simScanLoop execs snap [] simProcs []
  let stopped := scanned.2.1.filter (fun e => !dictMem e.1 scanned.1)
  let evs2 := stopped.map (fun e => Event.simStopped e.1)
  let sp2 := stopped.foldl (fun m e => dictErase e.1 m) scanned.2.1
  (sp2, scanned.2.2 ++ evs2)

/-! ### The `ProcessMonitor` poll tick (`_monitor_loop`, lines 182-193)

Each iteration of `_monitor_loop` runs, in this order and nothing else:
`_check_simulator_processes()`, `_check_addon_processes()`, `time.sleep`.
The loop itself performs no termination: `sim_stopped` is a Qt signal whose
connected slot (`MainWindow.on_simulator_stopped`, src/main.py line 176)
lives on the GUI thread, while the loop runs on a `threading.Thread` worker,
so the auto connection is queued and the slot executes outside the tick.
The tick therefore only records the emission. -/

/-- `self.sim_executables` (src/process_monitor.py lines 38-41). -/
def sim_executables : List (String × List String) :=
  [("MSFS2020", ["FlightSimulator.exe", "Microsoft.FlightSimulator.exe"]),
   ("MSFS2024", ["FlightSimulator.exe", "Microsoft.FlightDashboard.exe",
                 "Microsoft.Limitless.exe", "FlightSimulator2024.exe"])]

/-- The mutable process-tracking state of a `ProcessMonitor`
(lines 33-35). -/
structure MonitorState where
  sim_processes : SimMap
  addon_processes : AddonMap
  tracked_addon_paths : List (String × String)
deriving DecidableEq

/-- One iteration of `ProcessMonitor._monitor_loop`. -/
def processMonitorTick (fs : List String) (snap : List ProcRecord)
    (alivePids : List Nat) (sim_version : String) (st : MonitorState) :
    MonitorState × List Event :=
  let execs := dictGetD sim_version sim_executables []
  let simR := checkSimulatorProcesses snap execs st.sim_processes
  let addR := checkAddonProcesses fs snap alivePids st.tracked_addon_paths st.addon_processes
  ({ st with sim_processes := simR.1, addon_processes := addR.1 },
   simR.2 ++ addR.2)

/-! ### Data model of `src/per_entry_process_manager.py` -/

/-- Enum `ProcessState` (lines 10-15). -/
inductive ProcessState
  | not_running
  | starting
  | running
  | terminated
  | error
deriving DecidableEq

/-- Dataclass `ManagedProcess` (lines 17-26); `started_time` is an abstract
timestamp. -/
structure ManagedProcess where
  pid : Option Nat
  name : String
  path : String
  args : String
  state : ProcessState
  started_time : Option Nat
  auto_terminate : Bool
  msfs_dependent : Bool
deriving DecidableEq

/-- The mutable state of a `PerEntryProcessManager` (lines 33-45).
`stop_event_set` is the flag of the `threading.Event` object that `__init__`
binds to the instance attribute `stop_monitoring`. -/
structure PerEntryManager where
  managed_processes : List (String × ManagedProcess)
  msfs_was_running : Bool
  monitoring_active : Bool
  stop_event_set : Bool
deriving DecidableEq

/-- `PerEntryProcessManager.__init__` (lines 33-45). -/
def mkPerEntryManager : PerEntryManager :=
  { managed_processes := [], msfs_was_running := false,
    monitoring_active := false, stop_event_set := false }

/-- `self.msfs_processes` (line 35). -/
def msfs_processes : List String :=
  ["FlightSimulator.exe", "Microsoft.FlightSimulator.exe"]

/-- `PerEntryProcessManager.is_msfs_running` (lines 60-68). -/
def isMsfsRunning (snapNames : List String) : Bool :=
  snapNames.any (fun n => msfs_processes.contains n)

/-- The observable actions of the per-entry manager, in program order:
its four callback events plus two structural markers — `terminateCall e`
records the invocation of `terminate_process(e)` inside the termination
pass, `bookkeep e` records the `is_process_running(e)` status check of the
tick's bookkeeping loop, and `tickEnd` the `time.sleep` that ends the
iteration. -/
inductive PAction
  | msfsStatusChanged (running : Bool)
  | processStarted (entry : String)
  | processStopped (entry : String)
  | processTerminated (entry : String)
  | terminateCall (entry : String)
  | bookkeep (entry : String)
  | tickEnd
deriving DecidableEq

/-- Actions belonging to the addon-termination pass. -/
def isTermAction : PAction → Bool
  | .terminateCall _ => true
  | .processTerminated _ => true
  | _ => false

/-- Actions belonging to the per-entry status bookkeeping of a tick. -/
def isBookAction : PAction → Bool
  | .bookkeep _ => true
  | .processStopped _ => true
  | _ => false

/-- Replace the state field of the `ManagedProcess` stored under `entry`
(Python mutates the object in place; the dict keeps its position). -/
def setEntryState (entry : String) (mp : ManagedProcess) (s : ProcessState)
    (m : PerEntryManager) : PerEntryManager :=
  { m with managed_processes :=
      dictInsert entry { mp with state := s } m.managed_processes }

/-- Result of `subprocess.Popen(full_command)`: a pid, or an exception. -/
inductive SpawnResult
  | ok (pid : Nat)
  | fail
deriving DecidableEq

/-- `PerEntryProcessManager.launch_process` (lines 70-125).  The
`ManagedProcess` entry is inserted into `managed_processes` (line 102)
before `Popen` runs (line 105); on a spawn exception the handler finds the
entry present and sets its state to `ERROR` without removing it
(lines 121-125).  On success the entry is updated with the pid, `RUNNING`
and the start time, `process_started` is emitted, and monitoring is started
when `auto_terminate` is set and it was not active (`start_monitoring`,
lines 289-299: records the current MSFS status and clears the stop event). -/
def launchProcess (spawn : SpawnResult) (now : Nat) (msfsRunningNow : Bool)
    (entry exe_path args : String) (auto_terminate msfs_dependent : Bool)
    (m : PerEntryManager) : Bool × PerEntryManager × List PAction :=
  let managed : ManagedProcess :=
    { pid := none, name := basename exe_path, path := exe_path, args := args,
      state := .starting, started_time := none,
      auto_terminate := auto_terminate, msfs_dependent := msfs_dependent }
  let m1 := { m with managed_processes := dictInsert entry managed m.managed_processes }
  match spawn with
  | .fail =>
    let managedErr := { managed with state := ProcessState.error }
    let mp2 := dictInsert entry managedErr m1.managed_processes
    let m2 := { m1 with managed_processes := mp2 }
    (false, m2, [])
  | .ok pid =>
    let managed2 := { managed with pid := some pid, state := .running, started_time := some now }
    let mp2 := dictInsert entry managed2 m1.managed_processes
    let m2 := { m1 with managed_processes := mp2 }
    let m3 :=
      if auto_terminate && !m2.monitoring_active then
        { m2 with monitoring_active := true, msfs_was_running := msfsRunningNow, stop_event_set := false }
      else m2
    (true, m3, [PAction.processStarted entry])

/-- Abstract behaviour of one pid under
`PerEntryProcessManager.terminate_process`; constructors name the branch of
the source they drive. -/
inductive PTermOutcome
  /-- `except (psutil.NoSuchProcess, psutil.AccessDenied)` (line 172). -/
  | gone
  /-- `proc.is_running()` false on entry (line 149). -/
  | notRunning
  /-- `terminate()` then `wait(timeout=5)` returns (line 162). -/
  | graceful
  /-- `wait` times out and `kill()` runs (lines 163-165). -/
  | forceKilled
  /-- any other exception (line 176). -/
  | otherError
deriving DecidableEq

/-- `PerEntryProcessManager.terminate_process(entry_name)` with the default
`force=False` (lines 127-179).  `not managed_proc.pid` is Python truthiness,
so a pid of 0 also bails out. -/
def terminateProcess (o : Nat → PTermOutcome) (entry : String)
    (m : PerEntryManager) : Bool × PerEntryManager × List PAction :=
  match dictGet? entry m.managed_processes with
  | none => (false, m, [])
  | some mp =>
    match mp.pid with
    | none => (false, m, [])
    | some pid =>
      if pid = 0 then (false, m, [])
      else if mp.state ≠ .running then (false, m, [])
      else
        match o pid with
        | .notRunning => (true, setEntryState entry mp .not_running m, [])
        | .gone => (true, setEntryState entry mp .not_running m, [])
        | .otherError => (false, setEntryState entry mp .error m, [])
        | .graceful =>
          (true, setEntryState entry mp .terminated m, [PAction.processTerminated entry])
        | .forceKilled =>
          (true, setEntryState entry mp .terminated m, [PAction.processTerminated entry])

/-- `PerEntryProcessManager.terminate_msfs_dependent_processes`
(lines 181-196): walk `managed_processes.items()` and terminate every entry
that is msfs-dependent, auto-terminate and `RUNNING`.  The iteration reads
each `ManagedProcess` object once, before its own termination can mutate it,
and `terminate_process` only ever touches the entry it is given, so the
guard is evaluated on the pre-pass value of each item. -/
def terminateMsfsDependentLoop (o : Nat → PTermOutcome) :
    List (String × ManagedProcess) → PerEntryManager × List String × List PAction →
      PerEntryManager × List String × List PAction
  | [], acc => acc
  | item :: rest, acc =>
    if item.2.msfs_dependent && item.2.auto_terminate && item.2.state == ProcessState.running then
      let r := terminateProcess o item.1 acc.1
      terminateMsfsDependentLoop o rest
        (r.2.1, (if r.1 then acc.2.1 ++ [item.1] else acc.2.1),
         acc.2.2 ++ [PAction.terminateCall item.1] ++ r.2.2)
    else terminateMsfsDependentLoop o rest acc

def terminateMsfsDependent (o : Nat → PTermOutcome) (m : PerEntryManager) :
    PerEntryManager × List String × List PAction :=
  terminateMsfsDependentLoop o m.managed_processes (m, [], [])

/-- Liveness of a pid as seen by `psutil.Process(pid).is_running()`:
alive, dead, or raising `NoSuchProcess`/`AccessDenied`. -/
inductive AliveStatus
  | alive
  | dead
  | raisesErr
deriving DecidableEq

/-- `PerEntryProcessManager.is_process_running(entry_name)` (lines 198-220):
a point-in-time query that, on finding the tracked pid dead, sets the
entry's state to `NOT_RUNNING` and emits `process_stopped`; when psutil
raises it sets the state but emits nothing. -/
def isProcessRunningPE (alive : Nat → AliveStatus) (entry : String)
    (m : PerEntryManager) : Bool × PerEntryManager × List PAction :=
  match dictGet? entry m.managed_processes with
  | none => (false, m, [])
  | some mp =>
    match mp.pid with
    | none => (false, m, [])
    | some pid =>
      if pid = 0 then (false, m, [])
      else if mp.state ≠ .running then (false, m, [])
      else
        match alive pid with
        | .alive => (true, m, [])
        | .dead =>
          (false, setEntryState entry mp .not_running m, [PAction.processStopped entry])
        | .raisesErr => (false, setEntryState entry mp .not_running m, [])

/-- The `for entry_name in list(self.managed_processes.keys())` bookkeeping
loop of `_monitor_loop` (lines 279-280). -/
def bookkeepLoopRec (alive : Nat → AliveStatus) :
    List String → PerEntryManager × List PAction → PerEntryManager × List PAction
  | [], acc => acc
  | k :: rest, acc =>
    let r := isProcessRunningPE alive k acc.1
    bookkeepLoopRec alive rest (r.2.1, acc.2 ++ [PAction.bookkeep k] ++ r.2.2)

def bookkeepLoop (alive : Nat → AliveStatus) (keys : List String)
    (m : PerEntryManager) : PerEntryManager × List PAction :=
  bookkeepLoopRec alive keys (m, [])

/-- One iteration of `PerEntryProcessManager._monitor_loop` (lines 260-287):
check the MSFS status, on a change emit `msfs_status_changed` and on a
true-to-false edge run the termination pass synchronously; then update
`_msfs_was_running`; then run the per-entry status bookkeeping; then sleep
(`tickEnd`). -/
def perEntryTick (snapNames : List String) (alive : Nat → AliveStatus)
    (o : Nat → PTermOutcome) (m : PerEntryManager) :
    PerEntryManager × List PAction :=
  let msfs_now := isMsfsRunning snapNames
  let step1 : PerEntryManager × List PAction :=
    if msfs_now ≠ m.msfs_was_running then
      if !msfs_now && m.msfs_was_running then
        let r := terminateMsfsDependent o m
        (r.1, [PAction.msfsStatusChanged msfs_now] ++ r.2.2)
      else (m, [PAction.msfsStatusChanged msfs_now])
    else (m, [])
  let m2 := { step1.1 with msfs_was_running := msfs_now }
  let booked := bookkeepLoop alive (m2.managed_processes.map (fun e => e.1)) m2
  (booked.1, step1.2 ++ booked.2 ++ [PAction.tickEnd])

/-! ### The shadowed `stop_monitoring` attribute

`__init__` executes `self.stop_monitoring = threading.Event()` (line 37)
while the class also defines a method `stop_monitoring` (lines 301-313).
Python resolves `m.stop_monitoring` through the instance `__dict__` first
(plain functions are non-data descriptors), so on every constructed manager
the name denotes the Event object.  `threading.Event` instances are not
callable, so `m.stop_monitoring()` raises `TypeError` — including the call
in `cleanup_all` (line 322) — and the method body is unreachable. -/

/-- What the attribute name `stop_monitoring` can resolve to. -/
inductive StopMonitoringAttr
  | eventInstance (isSet : Bool)
  | classMethod
deriving DecidableEq

/-- Result of a Python call expression: a value, or `TypeError` because the
called object is not callable. -/
inductive PyCallResult (α : Type)
  | ok (val : α)
  | typeError
deriving DecidableEq

/-- Attribute lookup for `m.stop_monitoring`: the instance attribute bound
in `__init__` shadows the class-level method. -/
def lookupStopMonitoring (m : PerEntryManager) : StopMonitoringAttr :=
  .eventInstance m.stop_event_set

/-- Body of the class-level `stop_monitoring` method (lines 301-313), as it
would execute if it were reachable. -/
def stopMonitoringMethodBody (m : PerEntryManager) : PerEntryManager :=
  if !m.monitoring_active then m
  else { m with stop_event_set := true, monitoring_active := false }

/-- The call expression `m.stop_monitoring()`: calling whatever the name
resolves to.  An Event instance is not callable. -/
def callStopMonitoring (m : PerEntryManager) : PyCallResult PerEntryManager :=
  match lookupStopMonitoring m with
  | .eventInstance _ => .typeError
  | .classMethod => .ok (stopMonitoringMethodBody m)

/-! ### Further definitions used by the statements below -/

/-- Outcomes on which the pid is appended to `processes_to_remove`
(every branch except the `continue` after a failed force-kill). -/
def termRemoved : TermOutcome → Bool
  | .killFailed => false
  | _ => true

/-- The matching rule as the specification words it: the base executable
name must equal the base name of the registered path, and, when the record
exposes a resolvable executable path, that path must equal the registered
path after normalization; when the path is unresolvable the process is
accepted on name equality alone. -/
def specMatches (exe_path : String) (r : ProcRecord) : Bool :=
  (r.name == basename exe_path) &&
    (match r.exe with
     | some p => if p = "" then true else normLower p == normLower exe_path
     | none => true)

/-- The add-condition of the scan loop, branch for branch: not filtered out
by the name check, and not filtered out by the path check (which only
applies when `proc_exe` is truthy). -/
def recMatches (exe_name exe_path_norm : String) (r : ProcRecord) : Bool :=
  if r.name ≠ exe_name then false
  else if r.exe.getD "" ≠ "" then
    if normLower (r.exe.getD "") ≠ exe_path_norm then false else true
  else true

/-- Number of occurrences of `pid` in the tracked list of `addon`. -/
def trackedCount (addon : String) (pid : Nat) (st : AddonMap) : Nat :=
  (trackedPids addon st).count pid

/-- Run `_check_simulator_processes` over a sequence of consecutive
snapshots, collecting each tick's emissions separately. -/
def runSimChecks (execs : List String) (snaps : List (List ProcRecord))
    (sp : SimMap) : SimMap × List (List Event) :=
  snaps.foldl (fun acc snap =>
    let r := checkSimulatorProcesses snap execs acc.1
    (r.1, acc.2 ++ [r.2])) (sp, [])

/-- Extract the entry name of a termination-pass invocation marker. -/
def termMarker : PAction → Option String
  | .terminateCall e => some e
  | _ => none

/-- The entries the termination pass must cover: msfs-dependent,
auto-terminate and currently `RUNNING` (guard of line 186-188). -/
def eligibleEntries (m : PerEntryManager) : List String :=
  (m.managed_processes.filter (fun item =>
    item.2.msfs_dependent && item.2.auto_terminate && item.2.state == .running)).map
    (fun item => item.1)

/-- Manager used to witness C10: one entry `"E"` in state `RUNNING` with
pid 5. -/
def c10mp : ManagedProcess :=
  { pid := some 5, name := "h.exe", path := "h.exe", args := "",
    state := .running, started_time := some 0,
    auto_terminate := true, msfs_dependent := true }

def c10m : PerEntryManager :=
  { managed_processes := [("E", c10mp)], msfs_was_running := true,
    monitoring_active := true, stop_event_set := false }

/-! ## Helper lemmas about the dict model -/

theorem dictGet?_insert_self {α : Type} (k : String) (v : α) (l : List (String × α)) :
    dictGet? k (dictInsert k v l) = some v := by
  induction l with
  | nil => simp [dictInsert, dictGet?]
  | cons e rest ih =>
    rcases e with ⟨ek, ev⟩
    by_cases h : ek = k
    · simp [dictInsert, dictGet?, h]
    · simp [dictInsert, dictGet?, h, ih]

theorem dictGet?_insert_ne {α : Type} (k k' : String) (v : α) (l : List (String × α))
    (h : k' ≠ k) : dictGet? k' (dictInsert k v l) = dictGet? k' l := by
  induction l with
  | nil =>
    simp only [dictInsert, dictGet?]
    rw [if_neg (fun hh => h (hh.symm))]
  | cons e rest ih =>
    rcases e with ⟨ek, ev⟩
    by_cases he : ek = k
    · subst he
      simp only [dictInsert, if_pos rfl, dictGet?]
      rw [if_neg (fun hh => h (hh.symm)), if_neg (fun hh => h (hh.symm))]
    · simp only [dictInsert, if_neg he, dictGet?]
      by_cases he' : ek = k'
      · simp [he']
      · simp [he', ih]

theorem dictInsert_self_of_get {α : Type} (k : String) (v : α) (l : List (String × α))
    (h : dictGet? k l = some v) : dictInsert k v l = l := by
  induction l with
  | nil => simp [dictGet?] at h
  | cons e rest ih =>
    rcases e with ⟨ek, ev⟩
    by_cases he : ek = k
    · subst he
      simp [dictGet?] at h
      simp [dictInsert, h.symm]
    · simp only [dictGet?, if_neg he] at h
      simp [dictInsert, he, ih h]

/-! ## Claim C5 — the shadowed `stop_monitoring` attribute (code bug)

The spec claims `stop()` is an idempotent no-op that never raises.  The
intent is visible in the class: a `stop_monitoring` method is defined
(lines 301-313) and `cleanup_all` calls `self.stop_monitoring()`
(line 322).  But `__init__` binds `self.stop_monitoring` to a
`threading.Event` (line 37), which shadows the method, so every call
expression `m.stop_monitoring()` raises
`TypeError: 'Event' object is not callable`. -/

/-- C5: on a freshly constructed `PerEntryProcessManager`, the call
`m.stop_monitoring()` does not run the stop-monitoring method at all — the
name resolves to the non-callable `threading.Event` instance attribute and
the call raises `TypeError`, contradicting the claimed never-raising no-op. -/
theorem stop_monitoring_call_raises_typeerror :
    callStopMonitoring mkPerEntryManager = PyCallResult.typeError := rfl

/-! ## Claim C9 — `launch_process` is not atomic on spawn failure -/

/-- C9: when the `Popen` spawn step fails, `launch_process` returns `False`
but the entry has already been inserted into `managed_processes` and stays
registered there with state `ERROR`; the registration is not rolled back. -/
theorem launch_failure_leaves_error_entry (now : Nat) (msfsNow : Bool)
    (entry exe_path args : String) (auto dep : Bool) (m : PerEntryManager) :
    (launchProcess .fail now msfsNow entry exe_path args auto dep m).1 = false
    ∧ dictGet? entry
        (launchProcess .fail now msfsNow entry exe_path args auto dep m).2.1.managed_processes
      = some { pid := none, name := basename exe_path, path := exe_path, args := args,
               state := .error, started_time := none,
               auto_terminate := auto, msfs_dependent := dep } := by
  refine ⟨rfl, ?_⟩
  simp only [launchProcess]
  exact dictGet?_insert_self ..

/-! ## Claim C10 — `is_process_running` is a mutating query -/

/-- C10: when the queried entry's tracked pid is found dead,
`is_process_running` flips the entry's state to `NOT_RUNNING` and emits
`process_stopped`; when psutil raises instead, it still flips the state (no
event).  Either way the point-in-time query mutates the manager. -/
theorem is_process_running_mutates_on_dead_pid (alive : Nat → AliveStatus)
    (entry : String) (m : PerEntryManager) (mp : ManagedProcess) (pid : Nat)
    (hget : dictGet? entry m.managed_processes = some mp)
    (hpid : mp.pid = some pid) (hpos : pid ≠ 0) (hrun : mp.state = .running) :
    (alive pid = .dead →
      isProcessRunningPE alive entry m
        = (false, setEntryState entry mp .not_running m, [PAction.processStopped entry]))
    ∧ (alive pid = .raisesErr →
      isProcessRunningPE alive entry m
        = (false, setEntryState entry mp .not_running m, [])) := by
  constructor <;> intro ha <;>
    simp [isProcessRunningPE, hget, hpid, hpos, hrun, ha]

theorem is_process_running_mutates_witness :
    dictGet? "E" c10m.managed_processes = some c10mp
    ∧ c10mp.pid = some 5 ∧ (5 : Nat) ≠ 0 ∧ c10mp.state = .running
    ∧ isProcessRunningPE (fun _ => AliveStatus.dead) "E" c10m
        = (false, setEntryState "E" c10mp .not_running c10m,
           [PAction.processStopped "E"]) :=
  ⟨rfl, rfl, by decide, rfl,
    (is_process_running_mutates_on_dead_pid (fun _ => AliveStatus.dead) "E" c10m c10mp 5
      rfl rfl (by decide) rfl).1 rfl⟩

/-! ## Helper lemmas about the termination fold -/

theorem foldl_termStep_spec (o : Nat → TermOutcome) (procs : List ProcessInfo) :
    ∀ (c : Nat) (r : List ProcessInfo),
      procs.foldl (termStep o) (c, r)
        = (c + (procs.filter (fun p => termSuccess (o p.pid))).length,
           r ++ procs.filter (fun p => termRemoved (o p.pid))) := by
  induction procs with
  | nil => intro c r; simp
  | cons p rest ih =>
    intro c r
    cases h : o p.pid <;>
      simp [termStep, h, termSuccess, termRemoved, ih, List.filter_cons,
        Prod.ext_iff, List.append_assoc] <;> omega

theorem foldl_erase_cons_of_ne {α : Type} [DecidableEq α] (a : α) :
    ∀ (rs l : List α), (∀ x ∈ rs, x ≠ a) →
      rs.foldl (fun acc x => acc.erase x) (a :: l)
        = a :: rs.foldl (fun acc x => acc.erase x) l := by
  intro rs
  induction rs with
  | nil => intro l _; rfl
  | cons x rest ih =>
    intro l hx
    have hxa : ¬ (a == x) = true := by
      simp only [beq_iff_eq]
      exact fun hh => (hx x (List.mem_cons_self x rest)) hh.symm
    simp only [List.foldl_cons, List.erase_cons_tail hxa]
    exact ih (l.erase x) (fun y hy => hx y (List.mem_cons_of_mem x hy))

/-- Removing, one `list.remove` at a time, exactly the elements a Boolean
test collected, leaves exactly the elements failing the test. -/
theorem foldl_erase_filter {α : Type} [DecidableEq α] (rem : α → Bool) :
    ∀ l : List α,
      (l.filter rem).foldl (fun acc x => acc.erase x) l
        = l.filter (fun x => !(rem x)) := by
  intro l
  induction l with
  | nil => rfl
  | cons a t ih =>
    by_cases h : rem a = true
    · have hfr : (a :: t).filter rem = a :: t.filter rem := by
        simp [List.filter_cons, h]
      rw [hfr]
      simp only [List.foldl_cons, List.erase_cons_head]
      rw [ih]
      simp [List.filter_cons, h]
    · have hb : rem a = false := by simpa using h
      have hfr : (a :: t).filter rem = t.filter rem := by
        simp [List.filter_cons, hb]
      rw [hfr, foldl_erase_cons_of_ne a (t.filter rem) t ?hne, ih]
      · simp [List.filter_cons, hb]
      case hne =>
        intro x hx hxa
        have hxr := (List.mem_filter.mp hx).2
        rw [hxa, hb] at hxr
        exact Bool.false_ne_true hxr

/-- Closed form of `terminate_addon_processes` on a tracked addon: the
remaining list keeps exactly the force-kill-timeout pids, and the count is
the number of pids actually terminated. -/
theorem terminateAddonProcesses_spec (o : Nat → TermOutcome) (addon : String)
    (st : AddonMap) (procs : List ProcessInfo)
    (h : dictGet? addon st = some procs) :
    terminateAddonProcesses o addon st
      = (dictInsert addon (procs.filter (fun p => !(termRemoved (o p.pid)))) st,
         (procs.filter (fun p => termSuccess (o p.pid))).length) := by
  simp only [terminateAddonProcesses, h]
  rw [foldl_termStep_spec]
  simp only [Nat.zero_add, List.nil_append]
  rw [foldl_erase_filter (fun p => termRemoved (o p.pid)) procs]

/-! ## Claim C3 — termination does not always remove the pid (corrected)

The claim says every pid tracked at the start of
`terminate_addon_processes` is removed from the tracked list regardless of
outcome.  The `continue` at line 133 (second `TimeoutExpired`, after the
force-kill) skips the `processes_to_remove.append`, so a pid that survives
the force-kill wait stays tracked. -/

/-- C3 counterexample: one tracked pid whose force-kill wait times out.
After the call the pid is still in the tracked list, refuting removal
"regardless of the outcome of the termination attempt". -/
theorem killfailed_pid_not_removed :
    7 ∈ trackedPids "A" [("A", [⟨7, "h.exe", "h.exe"⟩])]
    ∧ 7 ∈ trackedPids "A" (terminateAddonProcesses (fun _ => TermOutcome.killFailed) "A"
        [("A", [⟨7, "h.exe", "h.exe"⟩])]).1 := by decide

/-- C3 amended: after `terminate_addon_processes(addon)` returns, every pid
tracked at the start has been removed from the tracked list except those
whose force-kill wait also timed out (kill failure), which remain tracked;
graceful exit, forced kill, already-exited, no-such-process and
access-denied all lead to removal, and an already-exited pid is treated as
success with zero work (removed without incrementing the count). -/
theorem terminate_removes_all_but_killfailed (o : Nat → TermOutcome)
    (addon : String) (st : AddonMap) (procs : List ProcessInfo)
    (h : dictGet? addon st = some procs) :
    dictGet? addon (terminateAddonProcesses o addon st).1
      = some (procs.filter (fun p => !(termRemoved (o p.pid))))
    ∧ (∀ p ∈ procs, o p.pid ≠ TermOutcome.killFailed →
        p ∉ dictGetD addon (terminateAddonProcesses o addon st).1 [])
    ∧ (terminateAddonProcesses o addon st).2
      = (procs.filter (fun p => termSuccess (o p.pid))).length := by
  have hs := terminateAddonProcesses_spec o addon st procs h
  refine ⟨?_, ?_, ?_⟩
  · rw [hs]
    exact dictGet?_insert_self ..
  · intro p hp hko hmem
    have h1 : dictGetD addon (terminateAddonProcesses o addon st).1 []
        = procs.filter (fun q => !(termRemoved (o q.pid))) := by
      rw [hs]
      simp [dictGetD, dictGet?_insert_self]
    rw [h1] at hmem
    have hflag := (List.mem_filter.mp hmem).2
    cases ho : o p.pid
    case killFailed => exact hko ho
    all_goals (rw [ho] at hflag; simp [termRemoved] at hflag)
  · rw [hs]

/-- Witness for C3's amended theorem: a single already-exited pid is
removed with a terminated count of zero. -/
theorem terminate_removes_witness :
    dictGet? "A" ([("A", [⟨7, "h.exe", "h.exe"⟩])] : AddonMap)
      = some [⟨7, "h.exe", "h.exe"⟩]
    ∧ dictGet? "A" (terminateAddonProcesses (fun _ => TermOutcome.notRunning) "A"
        [("A", [⟨7, "h.exe", "h.exe"⟩])]).1 = some []
    ∧ (terminateAddonProcesses (fun _ => TermOutcome.notRunning) "A"
        [("A", [⟨7, "h.exe", "h.exe"⟩])]).2 = 0 := by
  refine ⟨rfl, ?_, ?_⟩
  · have h1 := (terminate_removes_all_but_killfailed (fun _ => TermOutcome.notRunning) "A"
      [("A", [⟨7, "h.exe", "h.exe"⟩])] [⟨7, "h.exe", "h.exe"⟩] rfl).1
    simpa using h1
  · have h2 := (terminate_removes_all_but_killfailed (fun _ => TermOutcome.notRunning) "A"
      [("A", [⟨7, "h.exe", "h.exe"⟩])] [⟨7, "h.exe", "h.exe"⟩] rfl).2.2
    simpa using h2

/-! ## Claim C6 — `terminate_addon` is idempotent on its count -/

/-- C6: with no process changes between two consecutive calls (the same
behaviour oracle), the first `terminate_addon_processes` call returns the
number of surviving tracked processes it terminated and the second call
returns 0 — the leftovers of the first call are exactly the kill-failure
pids, which never increment the count; and running it for an unknown addon
name or for an addon with zero tracked pids is a no-op returning 0. -/
theorem terminate_addon_idempotent (o : Nat → TermOutcome) (addon : String)
    (st : AddonMap) :
    (terminateAddonProcesses o addon (terminateAddonProcesses o addon st).1).2 = 0
    ∧ (∀ procs, dictGet? addon st = some procs →
        (terminateAddonProcesses o addon st).2
          = (procs.filter (fun p => termSuccess (o p.pid))).length)
    ∧ (dictGet? addon st = none → terminateAddonProcesses o addon st = (st, 0))
    ∧ (dictGet? addon st = some [] → terminateAddonProcesses o addon st = (st, 0)) := by
  refine ⟨?_, fun procs h => by rw [terminateAddonProcesses_spec o addon st procs h], ?_, ?_⟩
  · cases h : dictGet? addon st with
    | none =>
      have h1 : terminateAddonProcesses o addon st = (st, 0) := by
        simp [terminateAddonProcesses, h]
      rw [h1]
      simp [terminateAddonProcesses, h]
    | some procs =>
      have hs := terminateAddonProcesses_spec o addon st procs h
      rw [hs]
      have h2 : dictGet? addon
          (dictInsert addon (procs.filter (fun p => !(termRemoved (o p.pid)))) st)
          = some (procs.filter (fun p => !(termRemoved (o p.pid)))) :=
        dictGet?_insert_self ..
      have hs2 := terminateAddonProcesses_spec o addon _ _ h2
      rw [hs2]
      have h3 : (procs.filter (fun p => !(termRemoved (o p.pid)))).filter
          (fun p => termSuccess (o p.pid)) = [] := by
        rw [List.filter_eq_nil_iff]
        intro p hp
        have hflag := (List.mem_filter.mp hp).2
        cases ho : o p.pid <;> rw [ho] at hflag
        case killFailed => simp [termSuccess, ho]
        all_goals simp [termRemoved] at hflag
      rw [List.filter_comm, h3]
      rfl
  · intro h
    simp [terminateAddonProcesses, h]
  · intro h
    simp only [terminateAddonProcesses, h]
    simp [dictInsert_self_of_get addon [] st h]

/-- Witness for C6: an addon tracked with zero pids is a no-op returning
zero, and a second call also returns zero. -/
theorem terminate_addon_idempotent_witness :
    dictGet? "A" ([("A", ([] : List ProcessInfo))] : AddonMap) = some []
    ∧ terminateAddonProcesses (fun _ => TermOutcome.graceful) "A" [("A", [])]
        = ([("A", [])], 0)
    ∧ (terminateAddonProcesses (fun _ => TermOutcome.graceful) "A"
        (terminateAddonProcesses (fun _ => TermOutcome.graceful) "A" [("A", [])]).1).2 = 0 :=
  ⟨rfl,
   (terminate_addon_idempotent (fun _ => TermOutcome.graceful) "A" [("A", [])]).2.2.2 rfl,
   (terminate_addon_idempotent (fun _ => TermOutcome.graceful) "A" [("A", [])]).1⟩

/-! ## Helper lemmas about the addon scan loop -/

/-- The scan loop's per-record step, collapsed into its two possible
effects: skip, or append the record and emit `addon_started`. -/
theorem scanLoop_cons (addon en epn ep : String) (cp : List Nat)
    (r : ProcRecord) (rest : List ProcRecord) (st : AddonMap) (evs : List Event) :
    scanLoop addon en epn ep cp (r :: rest) st evs
      = if r.pid ∈ cp ∨ recMatches en epn r = false then
          scanLoop addon en epn ep cp rest st evs
        else
          scanLoop addon en epn ep cp rest
            (dictInsert addon (dictGetD addon st []
              ++ [{ pid := r.pid, name := r.name, exe_path := exeOrDefault r.exe ep }]) st)
            (evs ++ [Event.addonStarted addon r.pid]) := by
  by_cases h1 : r.pid ∈ cp
  · simp [scanLoop, h1]
  · by_cases h2 : r.name = en
    · by_cases h3 : r.exe.getD "" = ""
      · simp [scanLoop, h1, h2, h3, recMatches]
      · by_cases h4 : normLower (r.exe.getD "") = epn
        · simp [scanLoop, h1, h2, h3, h4, recMatches]
        · simp [scanLoop, h1, h2, h3, h4, recMatches]
    · simp [scanLoop, h1, h2, recMatches]

theorem trackedCount_insert_append (addon : String) (p : Nat) (st : AddonMap)
    (info : ProcessInfo) :
    trackedCount addon p (dictInsert addon (dictGetD addon st [] ++ [info]) st)
      = trackedCount addon p st + (if info.pid = p then 1 else 0) := by
  unfold trackedCount trackedPids dictGetD
  rw [dictGet?_insert_self]
  simp only [Option.getD_some, List.map_append, List.count_append, List.map_cons,
    List.map_nil, List.count_singleton]
  by_cases h : info.pid = p <;> simp [h]

theorem count_addonStarted_append (addon : String) (p q : Nat) (evs : List Event) :
    (evs ++ [Event.addonStarted addon q]).count (Event.addonStarted addon p)
      = evs.count (Event.addonStarted addon p) + (if q = p then 1 else 0) := by
  rw [List.count_append, List.count_singleton]
  by_cases h : q = p <;> simp [h]

/-- Records whose pid can only match if it is already in `current_pids`
never change the tracked count of that pid and never emit its
`addon_started`. -/
theorem scanLoop_preserves (addon en epn ep : String) (cp : List Nat) (p : Nat) :
    ∀ (recs : List ProcRecord) (st : AddonMap) (evs : List Event),
      (∀ r ∈ recs, r.pid = p → r.pid ∈ cp) →
      trackedCount addon p (scanLoop addon en epn ep cp recs st evs).1
        = trackedCount addon p st
      ∧ (scanLoop addon en epn ep cp recs st evs).2.count (Event.addonStarted addon p)
        = evs.count (Event.addonStarted addon p) := by
  intro recs
  induction recs with
  | nil => intro st evs _; exact ⟨rfl, rfl⟩
  | cons r rest ih =>
    intro st evs hcond
    have hrest : ∀ q ∈ rest, q.pid = p → q.pid ∈ cp :=
      fun q hq => hcond q (List.mem_cons_of_mem r hq)
    rw [scanLoop_cons]
    by_cases hb : r.pid ∈ cp ∨ recMatches en epn r = false
    · rw [if_pos hb]
      exact ih st evs hrest
    · rw [if_neg hb]
      have hr1 : r.pid ∉ cp := fun hh => hb (Or.inl hh)
      have hrp : r.pid ≠ p := fun hh => hr1 (hcond r (List.mem_cons_self r rest) hh)
      have hstep := ih
        (dictInsert addon (dictGetD addon st []
          ++ [{ pid := r.pid, name := r.name, exe_path := exeOrDefault r.exe ep }]) st)
        (evs ++ [Event.addonStarted addon r.pid]) hrest
      refine ⟨?_, ?_⟩
      · rw [hstep.1, trackedCount_insert_append]
        simp [hrp]
      · rw [hstep.2, count_addonStarted_append]
        simp [hrp]

/-- Accounting for a fresh pid occurring exactly once in the snapshot: the
scan adds it (and emits `addon_started`) exactly when its record passes the
matching rule. -/
theorem scanLoop_new_pid (addon en epn ep : String) (cp : List Nat) (p : Nat)
    (hcp : p ∉ cp) :
    ∀ (recs : List ProcRecord) (st : AddonMap) (evs : List Event) (r : ProcRecord),
      r ∈ recs → (recs.map (fun q => q.pid)).Nodup → r.pid = p →
      trackedCount addon p (scanLoop addon en epn ep cp recs st evs).1
        = trackedCount addon p st + (if recMatches en epn r = true then 1 else 0)
      ∧ (scanLoop addon en epn ep cp recs st evs).2.count (Event.addonStarted addon p)
        = evs.count (Event.addonStarted addon p)
          + (if recMatches en epn r = true then 1 else 0) := by
  intro recs
  induction recs with
  | nil => intro st evs r hr; exact absurd hr (List.not_mem_nil r)
  | cons hd rest ih =>
    intro st evs r hr hnd hrp
    have hndtail : (rest.map (fun q => q.pid)).Nodup := (List.nodup_cons.mp hnd).2
    have hhd : hd.pid ∉ rest.map (fun q => q.pid) := (List.nodup_cons.mp hnd).1
    rcases List.mem_cons.mp hr with he | ht
    · -- the record of interest is at the head
      subst he
      have hnone : ∀ q ∈ rest, q.pid = p → q.pid ∈ cp := by
        intro q hq hqp
        exfalso
        apply hhd
        have hqm : q.pid ∈ rest.map (fun z => z.pid) :=
          List.mem_map_of_mem (fun z => z.pid) hq
        rw [hqp, ← hrp] at hqm
        exact hqm
      rw [scanLoop_cons]
      by_cases hm : recMatches en epn r = true
      · have hb : ¬ (r.pid ∈ cp ∨ recMatches en epn r = false) := by
          rintro (h1 | h2)
          · exact hcp (hrp ▸ h1)
          · rw [hm] at h2; exact absurd h2 (by simp)
        rw [if_neg hb]
        have hstep := scanLoop_preserves addon en epn ep cp p rest
          (dictInsert addon (dictGetD addon st []
            ++ [{ pid := r.pid, name := r.name, exe_path := exeOrDefault r.exe ep }]) st)
          (evs ++ [Event.addonStarted addon r.pid]) hnone
        refine ⟨?_, ?_⟩
        · rw [hstep.1, trackedCount_insert_append]
          simp [hrp, hm]
        · rw [hstep.2, count_addonStarted_append]
          simp [hrp, hm]
      · rw [if_pos (Or.inr (by simpa using hm))]
        have hstep := scanLoop_preserves addon en epn ep cp p rest st evs hnone
        simp [hm, hstep.1, hstep.2]
    · -- the record of interest is further down; the head's pid differs
      have hhdp : hd.pid ≠ p := by
        intro hh
        apply hhd
        have hrm : r.pid ∈ rest.map (fun z => z.pid) :=
          List.mem_map_of_mem (fun z => z.pid) ht
        rw [hrp, ← hh] at hrm
        exact hrm
      rw [scanLoop_cons]
      by_cases hb : hd.pid ∈ cp ∨ recMatches en epn hd = false
      · rw [if_pos hb]
        exact ih st evs r ht hndtail hrp
      · rw [if_neg hb]
        have hstep := ih
          (dictInsert addon (dictGetD addon st []
            ++ [{ pid := hd.pid, name := hd.name, exe_path := exeOrDefault hd.exe ep }]) st)
          (evs ++ [Event.addonStarted addon hd.pid]) r ht hndtail hrp
        refine ⟨?_, ?_⟩
        · rw [hstep.1, trackedCount_insert_append]
          simp [hhdp]
        · rw [hstep.2, count_addonStarted_append]
          simp [hhdp]

/-- A pid already tracked for an addon is ignored by that addon's scan:
its tracked count is unchanged and no `addon_started` is emitted for it. -/
theorem scan_tracked_pid_no_event (fs : List String) (snap : List ProcRecord)
    (addon exe_path : String) (st : AddonMap) (pid : Nat)
    (h : pid ∈ trackedPids addon st) :
    trackedCount addon pid (scanForAddonProcesses fs snap addon exe_path st).1
      = trackedCount addon pid st
    ∧ Event.addonStarted addon pid ∉ (scanForAddonProcesses fs snap addon exe_path st).2 := by
  unfold scanForAddonProcesses
  by_cases hf : exe_path ∈ fs
  · simp only [if_pos hf]
    have hp := scanLoop_preserves addon (basename exe_path) (normLower exe_path) exe_path
      (trackedPids addon st) pid snap st [] (fun r _ hrp => hrp ▸ h)
    refine ⟨hp.1, fun hmem => ?_⟩
    have hpos := List.count_pos_iff.mpr hmem
    rw [hp.2] at hpos
    simp at hpos
  · simp [if_neg hf]

/-- The spec's wording of the matching rule coincides with the scan loop's
add-condition once the loop parameters are instantiated from the registered
path. -/
theorem recMatches_eq_specMatches (exe_path : String) (r : ProcRecord) :
    recMatches (basename exe_path) (normLower exe_path) r = specMatches exe_path r := by
  unfold recMatches specMatches
  cases hx : r.exe with
  | none => by_cases hn : r.name = basename exe_path <;> simp [hn]
  | some p =>
    by_cases hn : r.name = basename exe_path
    · by_cases hp : p = ""
      · simp [hn, hp]
      · by_cases hq : normLower p = normLower exe_path <;> simp [hn, hp, hq]
    · simp [hn]

/-! ## Claim C2 — a pid can be claimed by two different addons (corrected)

The claim says no pid is ever tracked under two different addon
registrations simultaneously, first-match wins.  The scan only skips pids
already tracked by the addon being scanned (`current_pids` holds that
addon's own pids, line 262); nothing checks other addons, so a process
matching two registrations is claimed by both. -/

/-- C2 counterexample: addons `"A"` and `"B"` are both registered to the
same existing path; a single matching process is claimed by both in the
same addon pass, so pid 7 is tracked under two different addon names at
once. -/
theorem pid_claimed_by_two_addons :
    let r := checkAddonProcesses ["C:\\x\\h.exe"] [⟨7, "h.exe", some "C:\\x\\h.exe"⟩] [7]
      [("A", "C:\\x\\h.exe"), ("B", "C:\\x\\h.exe")] [("A", []), ("B", [])]
    7 ∈ trackedPids "A" r.1 ∧ 7 ∈ trackedPids "B" r.1 ∧ "A" ≠ "B" := by decide

/-- C2 amended: within one addon's scan, a pid already tracked by that same
addon is never re-claimed — its tracked count is unchanged and no duplicate
`addon_started` fires; the cross-addon half of the claim is false (a
process matching several registrations is claimed by each of them, see the
counterexample). -/
theorem scan_does_not_reclaim_tracked_pid (fs : List String) (snap : List ProcRecord)
    (addon exe_path : String) (st : AddonMap) (pid : Nat)
    (h : pid ∈ trackedPids addon st) :
    trackedCount addon pid (scanForAddonProcesses fs snap addon exe_path st).1
      = trackedCount addon pid st
    ∧ Event.addonStarted addon pid ∉ (scanForAddonProcesses fs snap addon exe_path st).2 :=
  scan_tracked_pid_no_event fs snap addon exe_path st pid h

/-- Witness for C2's amended theorem: pid 7 is already tracked for `"A"`;
a rescan over a snapshot still containing it neither duplicates it nor
re-emits its `addon_started`. -/
theorem scan_does_not_reclaim_witness :
    (7 : Nat) ∈ trackedPids "A" [("A", [⟨7, "h.exe", "h.exe"⟩])]
    ∧ trackedCount "A" 7 (scanForAddonProcesses ["h.exe"] [⟨7, "h.exe", some "h.exe"⟩]
        "A" "h.exe" [("A", [⟨7, "h.exe", "h.exe"⟩])]).1
      = trackedCount "A" 7 [("A", [⟨7, "h.exe", "h.exe"⟩])]
    ∧ Event.addonStarted "A" 7 ∉ (scanForAddonProcesses ["h.exe"]
        [⟨7, "h.exe", some "h.exe"⟩] "A" "h.exe" [("A", [⟨7, "h.exe", "h.exe"⟩])]).2 :=
  ⟨by decide,
   (scan_does_not_reclaim_tracked_pid ["h.exe"] [⟨7, "h.exe", some "h.exe"⟩]
      "A" "h.exe" [("A", [⟨7, "h.exe", "h.exe"⟩])] 7 (by decide)).1,
   (scan_does_not_reclaim_tracked_pid ["h.exe"] [⟨7, "h.exe", some "h.exe"⟩]
      "A" "h.exe" [("A", [⟨7, "h.exe", "h.exe"⟩])] 7 (by decide)).2⟩

/-! ## Claim C7 — the matching rule, characterized -/

/-- C7: with the registered path present on disk, a fresh snapshot record is
matched to the registration (its pid enters the tracked list) exactly when
its base executable name equals the base name of the registered path and,
when the record exposes a resolvable executable path, that path equals the
registered path after normalization; an unresolvable path falls back to
name-only matching. -/
theorem scan_match_characterization (fs : List String) (snap : List ProcRecord)
    (addon exe_path : String) (st : AddonMap) (r : ProcRecord)
    (hfs : exe_path ∈ fs) (hnodup : (snap.map (fun q => q.pid)).Nodup)
    (hmem : r ∈ snap) (hnew : r.pid ∉ trackedPids addon st) :
    r.pid ∈ trackedPids addon (scanForAddonProcesses fs snap addon exe_path st).1
      ↔ specMatches exe_path r = true := by
  unfold scanForAddonProcesses
  simp only [if_pos hfs]
  have hsl := scanLoop_new_pid addon (basename exe_path) (normLower exe_path) exe_path
    (trackedPids addon st) r.pid hnew snap st [] r hmem hnodup rfl
  rw [recMatches_eq_specMatches] at hsl
  have hcnt0 : trackedCount addon r.pid st = 0 := List.count_eq_zero.mpr hnew
  rw [← List.count_pos_iff]
  show 0 < trackedCount addon r.pid _ ↔ _
  rw [hsl.1, hcnt0]
  by_cases hspec : specMatches exe_path r = true <;> simp [hspec]

/-- Witness for C7: a fresh matching record is matched; the registered path
exists, the snapshot pid is unique and untracked. -/
theorem scan_match_witness :
    ("h.exe" : String) ∈ ["h.exe"]
    ∧ (([⟨7, "h.exe", some "h.exe"⟩] : List ProcRecord).map (fun q => q.pid)).Nodup
    ∧ (⟨7, "h.exe", some "h.exe"⟩ : ProcRecord) ∈ ([⟨7, "h.exe", some "h.exe"⟩] : List ProcRecord)
    ∧ (7 : Nat) ∉ trackedPids "A" [("A", [])]
    ∧ (7 ∈ trackedPids "A" (scanForAddonProcesses ["h.exe"] [⟨7, "h.exe", some "h.exe"⟩]
        "A" "h.exe" [("A", [])]).1
      ↔ specMatches "h.exe" ⟨7, "h.exe", some "h.exe"⟩ = true) :=
  ⟨by decide, by decide, by decide, by decide,
   scan_match_characterization ["h.exe"] [⟨7, "h.exe", some "h.exe"⟩] "A" "h.exe"
     [("A", [])] ⟨7, "h.exe", some "h.exe"⟩ (by decide) (by decide) (by decide) (by decide)⟩

/-! ## Claim C4 — a nonexistent registered path never matches (corrected)

The claim says a process with the matching base name is matched once it
appears, even while the registered path does not exist.  In the source the
very first statement of the scan is `if not os.path.exists(exe_path):
return` (line 255), so while the path is missing nothing is ever matched,
matching-name processes included. -/

/-- C4 counterexample: the registered path does not exist, a process whose
base executable name equals the registered base name is running, yet the
poll yields zero matches and no `addon-started` — the process is not
"matched exactly once" at that point as claimed. -/
theorem missing_path_never_matches :
    (⟨7, "h.exe", some "C:\\a\\h.exe"⟩ : ProcRecord).name = basename "C:\\a\\h.exe"
    ∧ scanForAddonProcesses [] [⟨7, "h.exe", some "C:\\a\\h.exe"⟩] "A" "C:\\a\\h.exe"
        [("A", [])] = ([("A", [])], []) := by decide

/-- C4 amended: while the registered path does not exist on disk, every
poll yields zero matches — even when a process with the matching base name
is running; once the path exists, a fresh matching process is matched
exactly once (a single `addon_started` for its pid), and no later scan of
the same addon ever emits a duplicate `addon_started` for that pid. -/
theorem scan_zero_matches_until_path_exists_then_once
    (fs : List String) (snap : List ProcRecord) (addon exe_path : String)
    (st : AddonMap) (r : ProcRecord)
    (hmem : r ∈ snap) (hnodup : (snap.map (fun q => q.pid)).Nodup)
    (hnew : r.pid ∉ trackedPids addon st) (hmatch : specMatches exe_path r = true) :
    (exe_path ∉ fs → scanForAddonProcesses fs snap addon exe_path st = (st, []))
    ∧ (exe_path ∈ fs →
        (scanForAddonProcesses fs snap addon exe_path st).2.count
            (Event.addonStarted addon r.pid) = 1
        ∧ ∀ snap2 : List ProcRecord,
            Event.addonStarted addon r.pid ∉
              (scanForAddonProcesses fs snap2 addon exe_path
                (scanForAddonProcesses fs snap addon exe_path st).1).2) := by
  constructor
  · intro hf
    unfold scanForAddonProcesses
    rw [if_neg hf]
  · intro hf
    have hsl := scanLoop_new_pid addon (basename exe_path) (normLower exe_path) exe_path
      (trackedPids addon st) r.pid hnew snap st [] r hmem hnodup rfl
    rw [recMatches_eq_specMatches, hmatch] at hsl
    have hev : (scanForAddonProcesses fs snap addon exe_path st).2.count
        (Event.addonStarted addon r.pid) = 1 := by
      unfold scanForAddonProcesses
      rw [if_pos hf]
      rw [hsl.2]
      simp
    refine ⟨hev, fun snap2 => ?_⟩
    have htracked : r.pid ∈ trackedPids addon (scanForAddonProcesses fs snap addon exe_path st).1 := by
      rw [← List.count_pos_iff]
      show 0 < trackedCount addon r.pid _
      have : trackedCount addon r.pid (scanForAddonProcesses fs snap addon exe_path st).1
          = trackedCount addon r.pid st + 1 := by
        unfold scanForAddonProcesses
        rw [if_pos hf]
        rw [hsl.1]
        simp
      omega
    exact (scan_tracked_pid_no_event fs snap2 addon exe_path _ r.pid htracked).2

/-- Witness for C4's amended theorem at a concrete fresh matching record. -/
theorem scan_zero_matches_witness :
    ((⟨7, "h.exe", some "h.exe"⟩ : ProcRecord) ∈ ([⟨7, "h.exe", some "h.exe"⟩] : List ProcRecord))
    ∧ specMatches "h.exe" ⟨7, "h.exe", some "h.exe"⟩ = true
    ∧ scanForAddonProcesses [] [⟨7, "h.exe", some "h.exe"⟩] "A" "h.exe" [("A", [])]
        = ([("A", [])], [])
    ∧ (scanForAddonProcesses ["h.exe"] [⟨7, "h.exe", some "h.exe"⟩] "A" "h.exe"
        [("A", [])]).2.count (Event.addonStarted "A" 7) = 1 :=
  ⟨by decide, by decide,
   (scan_zero_matches_until_path_exists_then_once [] [⟨7, "h.exe", some "h.exe"⟩]
      "A" "h.exe" [("A", [])] ⟨7, "h.exe", some "h.exe"⟩ (by decide) (by decide)
      (by decide) (by decide)).1 (by decide),
   ((scan_zero_matches_until_path_exists_then_once ["h.exe"] [⟨7, "h.exe", some "h.exe"⟩]
      "A" "h.exe" [("A", [])] ⟨7, "h.exe", some "h.exe"⟩ (by decide) (by decide)
      (by decide) (by decide)).2 (by decide)).1⟩

/-! ## Helper lemmas about the simulator scan -/

theorem dictMem_insert_iff {α : Type} (n k : String) (v : α) (l : List (String × α)) :
    dictMem n (dictInsert k v l) = true ↔ (n = k ∨ dictMem n l = true) := by
  induction l with
  | nil =>
    simp only [dictInsert, dictMem, List.any_cons, List.any_nil, Bool.or_false,
      beq_iff_eq]
    constructor
    · intro h; exact Or.inl h.symm
    · rintro (h | h)
      · exact h.symm
      · cases h
  | cons e rest ih =>
    rcases e with ⟨ek, ev⟩
    by_cases he : ek = k
    · subst he
      have hd : dictInsert ek v ((ek, ev) :: rest) = (ek, v) :: rest := by
        simp [dictInsert]
      rw [hd]
      simp only [dictMem, List.any_cons, beq_iff_eq, Bool.or_eq_true]
      constructor
      · rintro (h | h)
        · exact Or.inl h.symm
        · exact Or.inr (Or.inr h)
      · rintro (h | h | h)
        · exact Or.inl h.symm
        · exact Or.inl h
        · exact Or.inr h
    · have hd : dictInsert k v ((ek, ev) :: rest) = (ek, ev) :: dictInsert k v rest := by
        simp [dictInsert, he]
      rw [hd]
      simp only [dictMem, List.any_cons, beq_iff_eq, Bool.or_eq_true] at ih ⊢
      constructor
      · rintro (h | h)
        · exact Or.inr (Or.inl h)
        · rcases ih.mp h with h2 | h2
          · exact Or.inl h2
          · exact Or.inr (Or.inr h2)
      · rintro (h | h | h)
        · exact Or.inr (ih.mpr (Or.inl h))
        · exact Or.inl h
        · exact Or.inr (ih.mpr (Or.inr h))

theorem dictMem_iff_keys {α : Type} (n : String) (l : List (String × α)) :
    dictMem n l = true ↔ n ∈ l.map (fun e => e.1) := by
  induction l with
  | nil => simp [dictMem]
  | cons e rest ih =>
    simp only [dictMem, List.any_cons, beq_iff_eq, Bool.or_eq_true,
      List.map_cons, List.mem_cons] at ih ⊢
    constructor
    · rintro (h | h)
      · exact Or.inl h.symm
      · exact Or.inr (ih.mp h)
    · rintro (h | h)
      · exact Or.inl h.symm
      · exact Or.inr (ih.mpr h)

theorem keys_dictInsert_of_not_mem {α : Type} (k : String) (v : α)
    (l : List (String × α)) (h : dictMem k l = false) :
    (dictInsert k v l).map (fun e => e.1) = l.map (fun e => e.1) ++ [k] := by
  induction l with
  | nil => simp [dictInsert]
  | cons e rest ih =>
    rcases e with ⟨ek, ev⟩
    simp only [dictMem, List.any_cons, Bool.or_eq_false_iff] at h
    have hek : ¬ ek = k := by
      intro hh
      rw [hh] at h
      simp at h
    simp only [dictInsert, if_neg hek, List.map_cons]
    rw [ih h.2]
    simp

/-- Step reductions of the simulator snapshot walk. -/
theorem simScanLoop_cons_skip (execs : List String) (r : ProcRecord)
    (rest : List ProcRecord) (cur sp : SimMap) (evs : List Event)
    (h : r.name ∉ execs) :
    simScanLoop execs (r :: rest) cur sp evs = simScanLoop execs rest cur sp evs := by
  simp [simScanLoop, h]

theorem simScanLoop_cons_known (execs : List String) (r : ProcRecord)
    (rest : List ProcRecord) (cur sp : SimMap) (evs : List Event)
    (hre : r.name ∈ execs) (hmem : dictMem r.name sp = true) :
    simScanLoop execs (r :: rest) cur sp evs
      = simScanLoop execs rest (dictInsert r.name ⟨r.pid, r.name, r.exe.getD ""⟩ cur)
          sp evs := by
  simp [simScanLoop, hre, hmem]

theorem simScanLoop_cons_new (execs : List String) (r : ProcRecord)
    (rest : List ProcRecord) (cur sp : SimMap) (evs : List Event)
    (hre : r.name ∈ execs) (hmem : dictMem r.name sp = false) :
    simScanLoop execs (r :: rest) cur sp evs
      = simScanLoop execs rest (dictInsert r.name ⟨r.pid, r.name, r.exe.getD ""⟩ cur)
          (dictInsert r.name ⟨r.pid, r.name, r.exe.getD ""⟩ sp)
          (evs ++ [Event.simStarted r.name]) := by
  simp [simScanLoop, hre, hmem]

/-- The snapshot walk emits `sim_started n` exactly once when `n` is a
configured name appearing in the snapshot that was not already tracked, and
never otherwise. -/
theorem simScanLoop_started_count (execs : List String) (n : String) :
    ∀ (recs : List ProcRecord) (cur sp : SimMap) (evs : List Event),
      (simScanLoop execs recs cur sp evs).2.2.count (Event.simStarted n)
        = evs.count (Event.simStarted n)
          + (if n ∈ execs ∧ n ∈ recs.map (fun r => r.name) ∧ dictMem n sp = false
             then 1 else 0) := by
  intro recs
  induction recs with
  | nil => intro cur sp evs; simp [simScanLoop]
  | cons r rest ih =>
    intro cur sp evs
    by_cases hre : r.name ∈ execs
    · by_cases hmem : dictMem r.name sp = true
      · rw [simScanLoop_cons_known execs r rest cur sp evs hre hmem, ih]
        congr 1
        refine if_congr ?_ rfl rfl
        constructor
        · rintro ⟨h1, h2, h3⟩
          exact ⟨h1, by simp [h2], h3⟩
        · rintro ⟨h1, h2, h3⟩
          simp only [List.map_cons, List.mem_cons] at h2
          rcases h2 with h2 | h2
          · rw [h2] at h3
            rw [hmem] at h3
            cases h3
          · exact ⟨h1, h2, h3⟩
      · have hmem' : dictMem r.name sp = false := by
          cases hval : dictMem r.name sp
          · rfl
          · exact absurd hval hmem
        rw [simScanLoop_cons_new execs r rest cur sp evs hre hmem', ih]
        by_cases hn : n = r.name
        · subst hn
          have hins : dictMem r.name (dictInsert r.name ⟨r.pid, r.name, r.exe.getD ""⟩ sp)
              = true :=
            (dictMem_insert_iff r.name r.name _ sp).mpr (Or.inl rfl)
          rw [hins]
          simp [List.count_append, hre, hmem']
        · have hins : dictMem n (dictInsert r.name ⟨r.pid, r.name, r.exe.getD ""⟩ sp)
              = dictMem n sp := by
            cases hval : dictMem n sp
            · cases hval2 : dictMem n (dictInsert r.name ⟨r.pid, r.name, r.exe.getD ""⟩ sp)
              · rfl
              · rcases (dictMem_insert_iff n r.name _ sp).mp hval2 with h | h
                · exact absurd h hn
                · rw [hval] at h; cases h
            · exact (dictMem_insert_iff n r.name _ sp).mpr (Or.inr hval)
          rw [hins]
          have hcnt : (evs ++ [Event.simStarted r.name]).count (Event.simStarted n)
              = evs.count (Event.simStarted n) := by
            simp [List.count_append, List.count_singleton, hn, Ne.symm hn]
          rw [hcnt]
          congr 1
          refine if_congr ?_ rfl rfl
          constructor
          · rintro ⟨h1, h2, h3⟩
            exact ⟨h1, by simp [h2], h3⟩
          · rintro ⟨h1, h2, h3⟩
            simp only [List.map_cons, List.mem_cons] at h2
            rcases h2 with h2 | h2
            · exact absurd h2 hn
            · exact ⟨h1, h2, h3⟩
    · rw [simScanLoop_cons_skip execs r rest cur sp evs hre, ih]
      congr 1
      refine if_congr ?_ rfl rfl
      constructor
      · rintro ⟨h1, h2, h3⟩
        exact ⟨h1, by simp [h2], h3⟩
      · rintro ⟨h1, h2, h3⟩
        simp only [List.map_cons, List.mem_cons] at h2
        rcases h2 with h2 | h2
        · rw [h2] at h1
          exact absurd h1 hre
        · exact ⟨h1, h2, h3⟩

/-- The snapshot walk never emits `sim_stopped`. -/
theorem simScanLoop_no_stopped (execs : List String) (n : String) :
    ∀ (recs : List ProcRecord) (cur sp : SimMap) (evs : List Event),
      (simScanLoop execs recs cur sp evs).2.2.count (Event.simStopped n)
        = evs.count (Event.simStopped n) := by
  intro recs
  induction recs with
  | nil => intro cur sp evs; rfl
  | cons r rest ih =>
    intro cur sp evs
    by_cases hre : r.name ∈ execs
    · by_cases hmem : dictMem r.name sp = true
      · rw [simScanLoop_cons_known execs r rest cur sp evs hre hmem, ih]
      · have hmem' : dictMem r.name sp = false := by
          cases hval : dictMem r.name sp
          · rfl
          · exact absurd hval hmem
        rw [simScanLoop_cons_new execs r rest cur sp evs hre hmem', ih]
        simp [List.count_append]
    · rw [simScanLoop_cons_skip execs r rest cur sp evs hre, ih]

/-- Membership in `current_sim_processes` after the walk. -/
theorem simScanLoop_current_mem (execs : List String) (n : String) :
    ∀ (recs : List ProcRecord) (cur sp : SimMap) (evs : List Event),
      (dictMem n (simScanLoop execs recs cur sp evs).1 = true ↔
        (dictMem n cur = true ∨ (n ∈ execs ∧ n ∈ recs.map (fun r => r.name)))) := by
  intro recs
  induction recs with
  | nil => intro cur sp evs; simp [simScanLoop]
  | cons r rest ih =>
    intro cur sp evs
    by_cases hre : r.name ∈ execs
    · have hstep : ∀ sp' evs',
          (dictMem n (simScanLoop execs rest
              (dictInsert r.name ⟨r.pid, r.name, r.exe.getD ""⟩ cur) sp' evs').1 = true ↔
            (dictMem n cur = true
              ∨ (n ∈ execs ∧ n ∈ (r :: rest).map (fun q => q.name)))) := by
        intro sp' evs'
        rw [ih]
        rw [dictMem_insert_iff]
        constructor
        · rintro ((h | h) | ⟨h1, h2⟩)
          · exact Or.inr ⟨h ▸ hre, by simp [h]⟩
          · exact Or.inl h
          · exact Or.inr ⟨h1, by simp [h2]⟩
        · rintro (h | ⟨h1, h2⟩)
          · exact Or.inl (Or.inr h)
          · simp only [List.map_cons, List.mem_cons] at h2
            rcases h2 with h2 | h2
            · exact Or.inl (Or.inl h2)
            · exact Or.inr ⟨h1, h2⟩
      by_cases hmem : dictMem r.name sp = true
      · rw [simScanLoop_cons_known execs r rest cur sp evs hre hmem]
        exact hstep sp evs
      · have hmem' : dictMem r.name sp = false := by
          cases hval : dictMem r.name sp
          · rfl
          · exact absurd hval hmem
        rw [simScanLoop_cons_new execs r rest cur sp evs hre hmem']
        exact hstep _ _
    · rw [simScanLoop_cons_skip execs r rest cur sp evs hre, ih]
      constructor
      · rintro (h | ⟨h1, h2⟩)
        · exact Or.inl h
        · exact Or.inr ⟨h1, by simp [h2]⟩
      · rintro (h | ⟨h1, h2⟩)
        · exact Or.inl h
        · simp only [List.map_cons, List.mem_cons] at h2
          rcases h2 with h2 | h2
          · rw [h2] at h1
            exact absurd h1 hre
          · exact Or.inr ⟨h1, h2⟩

/-- Membership in `sim_processes` after the walk. -/
theorem simScanLoop_simprocs_mem (execs : List String) (n : String) :
    ∀ (recs : List ProcRecord) (cur sp : SimMap) (evs : List Event),
      (dictMem n (simScanLoop execs recs cur sp evs).2.1 = true ↔
        (dictMem n sp = true ∨ (n ∈ execs ∧ n ∈ recs.map (fun r => r.name)))) := by
  intro recs
  induction recs with
  | nil => intro cur sp evs; simp [simScanLoop]
  | cons r rest ih =>
    intro cur sp evs
    by_cases hre : r.name ∈ execs
    · by_cases hmem : dictMem r.name sp = true
      · rw [simScanLoop_cons_known execs r rest cur sp evs hre hmem, ih]
        constructor
        · rintro (h | ⟨h1, h2⟩)
          · exact Or.inl h
          · exact Or.inr ⟨h1, by simp [h2]⟩
        · rintro (h | ⟨h1, h2⟩)
          · exact Or.inl h
          · simp only [List.map_cons, List.mem_cons] at h2
            rcases h2 with h2 | h2
            · exact Or.inl (h2 ▸ hmem)
            · exact Or.inr ⟨h1, h2⟩
      · have hmem' : dictMem r.name sp = false := by
          cases hval : dictMem r.name sp
          · rfl
          · exact absurd hval hmem
        rw [simScanLoop_cons_new execs r rest cur sp evs hre hmem', ih]
        rw [dictMem_insert_iff]
        constructor
        · rintro ((h | h) | ⟨h1, h2⟩)
          · exact Or.inr ⟨h ▸ hre, by simp [h]⟩
          · exact Or.inl h
          · exact Or.inr ⟨h1, by simp [h2]⟩
        · rintro (h | ⟨h1, h2⟩)
          · exact Or.inl (Or.inr h)
          · simp only [List.map_cons, List.mem_cons] at h2
            rcases h2 with h2 | h2
            · exact Or.inl (Or.inl h2)
            · exact Or.inr ⟨h1, h2⟩
    · rw [simScanLoop_cons_skip execs r rest cur sp evs hre, ih]
      constructor
      · rintro (h | ⟨h1, h2⟩)
        · exact Or.inl h
        · exact Or.inr ⟨h1, by simp [h2]⟩
      · rintro (h | ⟨h1, h2⟩)
        · exact Or.inl h
        · simp only [List.map_cons, List.mem_cons] at h2
          rcases h2 with h2 | h2
          · rw [h2] at h1
            exact absurd h1 hre
          · exact Or.inr ⟨h1, h2⟩

/-- The walk preserves uniqueness of the `sim_processes` keys. -/
theorem simScanLoop_keys_nodup (execs : List String) :
    ∀ (recs : List ProcRecord) (cur sp : SimMap) (evs : List Event),
      (sp.map (fun e => e.1)).Nodup →
      ((simScanLoop execs recs cur sp evs).2.1.map (fun e => e.1)).Nodup := by
  intro recs
  induction recs with
  | nil => intro cur sp evs h; exact h
  | cons r rest ih =>
    intro cur sp evs h
    by_cases hre : r.name ∈ execs
    · by_cases hmem : dictMem r.name sp = true
      · rw [simScanLoop_cons_known execs r rest cur sp evs hre hmem]
        exact ih _ sp _ h
      · have hmem' : dictMem r.name sp = false := by
          cases hval : dictMem r.name sp
          · rfl
          · exact absurd hval hmem
        rw [simScanLoop_cons_new execs r rest cur sp evs hre hmem']
        refine ih _ _ _ ?_
        rw [keys_dictInsert_of_not_mem r.name _ sp hmem']
        have hnot : r.name ∉ sp.map (fun e => e.1) := by
          intro hk
          rw [← dictMem_iff_keys] at hk
          rw [hmem'] at hk
          cases hk
        simp [List.nodup_append, h, hnot]
    · rw [simScanLoop_cons_skip execs r rest cur sp evs hre]
      exact ih cur sp evs h

/-- Counting a key among the keys of a key-filtered association list with
unique keys. -/
theorem keys_count_filter_keydep {α : Type} (g : String → Bool) (n : String) :
    ∀ l : List (String × α), (l.map (fun e => e.1)).Nodup →
      ((l.filter (fun e => g e.1)).map (fun e => e.1)).count n
        = if n ∈ l.map (fun e => e.1) ∧ g n = true then 1 else 0 := by
  intro l
  induction l with
  | nil => intro _; simp
  | cons e rest ih =>
    intro hnd
    rcases e with ⟨ek, ev⟩
    simp only [List.map_cons, List.nodup_cons] at hnd
    by_cases hg : g ek = true
    · rw [List.filter_cons_of_pos (by simpa using hg)]
      simp only [List.map_cons]
      rw [List.count_cons, ih hnd.2]
      by_cases hn : ek = n
      · subst hn
        have hzero : ¬ (ek ∈ rest.map (fun e => e.1) ∧ g ek = true) :=
          fun hc => hnd.1 hc.1
        simp [hzero, hg]
        intro x hx
        exact hnd.1 (List.mem_map_of_mem (fun e => e.1) hx)
      · simp only [beq_iff_eq]
        rw [if_neg hn, Nat.add_zero]
        refine if_congr ?_ rfl rfl
        simp only [List.map_cons, List.mem_cons]
        constructor
        · rintro ⟨h1, h2⟩
          exact ⟨Or.inr h1, h2⟩
        · rintro ⟨h1 | h1, h2⟩
          · exact absurd h1.symm hn
          · exact ⟨h1, h2⟩
    · rw [List.filter_cons_of_neg (by simpa using hg)]
      rw [ih hnd.2]
      refine if_congr ?_ rfl rfl
      simp only [List.map_cons, List.mem_cons]
      constructor
      · rintro ⟨h1, h2⟩
        exact ⟨Or.inr h1, h2⟩
      · rintro ⟨h1 | h1, h2⟩
        · rw [h1] at h2
          exact absurd h2 hg
        · exact ⟨h1, h2⟩

theorem count_simStopped_map (n : String) (l : List (String × ProcessInfo)) :
    (l.map (fun e => Event.simStopped e.1)).count (Event.simStopped n)
      = (l.map (fun e => e.1)).count n := by
  induction l with
  | nil => rfl
  | cons e rest ih =>
    simp only [List.map_cons, List.count_cons, ih]
    congr 1
    simp only [beq_iff_eq]
    by_cases h : e.1 = n
    · simp [h]
    · simp [h]

theorem count_simStarted_of_map_stopped (n : String) (l : List (String × ProcessInfo)) :
    (l.map (fun e => Event.simStopped e.1)).count (Event.simStarted n) = 0 := by
  rw [List.count_eq_zero]
  intro hmem
  rcases List.mem_map.mp hmem with ⟨e, _, he⟩
  cases he

/-! ## Claim C8 — edge-triggered simulator events, once per name per edge -/

/-- C8: per poll, `sim_started n` fires exactly once when `n` is a
configured executable name appearing in the snapshot that was not tracked,
and never otherwise (once per distinct name, not once per pid);
`sim_stopped n` fires exactly once when `n` was tracked and no longer
appears; and the absent-present-present-absent scenario produces exactly
one `sim_started` at the second tick and one `sim_stopped` at the fourth. -/
theorem sim_events_edge_triggered_once (snap : List ProcRecord) (execs : List String)
    (sp : SimMap) (n : String) (hnodup : (sp.map (fun e => e.1)).Nodup) :
    ((checkSimulatorProcesses snap execs sp).2.count (Event.simStarted n)
      = if n ∈ execs ∧ n ∈ snap.map (fun r => r.name) ∧ dictMem n sp = false
        then 1 else 0)
    ∧ ((checkSimulatorProcesses snap execs sp).2.count (Event.simStopped n)
      = if dictMem n sp = true ∧ ¬(n ∈ execs ∧ n ∈ snap.map (fun r => r.name))
        then 1 else 0)
    ∧ runSimChecks ["Sim.exe"] [[], [⟨1, "Sim.exe", none⟩], [⟨1, "Sim.exe", none⟩], []] []
      = ([], [[], [Event.simStarted "Sim.exe"], [], [Event.simStopped "Sim.exe"]]) := by
  refine ⟨?_, ?_, by decide⟩
  · simp only [checkSimulatorProcesses, List.count_append]
    rw [simScanLoop_started_count execs n snap [] sp []]
    rw [count_simStarted_of_map_stopped]
    simp
  · simp only [checkSimulatorProcesses, List.count_append]
    rw [simScanLoop_no_stopped execs n snap [] sp []]
    rw [count_simStopped_map]
    rw [keys_count_filter_keydep (fun k => !dictMem k (simScanLoop execs snap [] sp []).1)
      n (simScanLoop execs snap [] sp []).2.1
      (simScanLoop_keys_nodup execs snap [] sp [] hnodup)]
    simp only [List.count_nil, Nat.zero_add]
    refine if_congr ?_ rfl rfl
    constructor
    · rintro ⟨h1, h2⟩
      have h1' := (simScanLoop_simprocs_mem execs n snap [] sp []).mp
        ((dictMem_iff_keys n _).mpr h1)
      have h2' : ¬ (dictMem n (simScanLoop execs snap [] sp []).1 = true) := by
        intro hc
        rw [hc] at h2
        cases h2
      rw [simScanLoop_current_mem execs n snap [] sp []] at h2'
      have hnb : ¬ (n ∈ execs ∧ n ∈ snap.map (fun r => r.name)) :=
        fun hc => h2' (Or.inr hc)
      rcases h1' with h1' | h1'
      · exact ⟨h1', hnb⟩
      · exact absurd h1' hnb
    · rintro ⟨h1, h2⟩
      refine ⟨(dictMem_iff_keys n _).mp
        ((simScanLoop_simprocs_mem execs n snap [] sp []).mpr (Or.inl h1)), ?_⟩
      have hcur : ¬ (dictMem n (simScanLoop execs snap [] sp []).1 = true) := by
        rw [simScanLoop_current_mem execs n snap [] sp []]
        rintro (hc | hc)
        · simp [dictMem] at hc
        · exact h2 hc
      cases hv : dictMem n (simScanLoop execs snap [] sp []).1
      · rfl
      · exact absurd hv hcur

/-- Witness for C8 at a concrete fresh snapshot: exactly one `sim_started`
for the newly-appeared configured name. -/
theorem sim_events_witness :
    ((([] : SimMap)).map (fun e => e.1)).Nodup
    ∧ (checkSimulatorProcesses [⟨1, "Sim.exe", none⟩] ["Sim.exe"] []).2.count
        (Event.simStarted "Sim.exe")
      = if ("Sim.exe" : String) ∈ ["Sim.exe"]
          ∧ "Sim.exe" ∈ ([⟨1, "Sim.exe", none⟩] : List ProcRecord).map (fun r => r.name)
          ∧ dictMem "Sim.exe" ([] : SimMap) = false
        then 1 else 0 :=
  ⟨by decide,
   (sim_events_edge_triggered_once [⟨1, "Sim.exe", none⟩] ["Sim.exe"] [] "Sim.exe"
     (by decide)).1⟩

/-! ## Helper lemmas about the per-entry tick trace -/

theorem isTermAction_not_book (a : PAction) (h : isTermAction a = true) :
    isBookAction a = false := by
  cases a <;> first | rfl | cases h

theorem isBookAction_not_term (a : PAction) (h : isBookAction a = true) :
    isTermAction a = false := by
  cases a <;> first | rfl | cases h

theorem termMarker_none_of_book (a : PAction) (h : isBookAction a = true) :
    termMarker a = none := by
  cases a <;> first | rfl | cases h

theorem terminateProcess_trace (o : Nat → PTermOutcome) (entry : String)
    (m : PerEntryManager) :
    (terminateProcess o entry m).2.2 = []
    ∨ (terminateProcess o entry m).2.2 = [PAction.processTerminated entry] := by
  cases hg : dictGet? entry m.managed_processes with
  | none => left; simp [terminateProcess, hg]
  | some mp =>
    cases hp : mp.pid with
    | none => left; simp [terminateProcess, hg, hp]
    | some pid =>
      by_cases hz : pid = 0
      · left; simp [terminateProcess, hg, hp, hz]
      · by_cases hs : mp.state = ProcessState.running
        · cases ho : o pid
          · left; simp [terminateProcess, hg, hp, hz, hs, ho]
          · left; simp [terminateProcess, hg, hp, hz, hs, ho]
          · right; simp [terminateProcess, hg, hp, hz, hs, ho]
          · right; simp [terminateProcess, hg, hp, hz, hs, ho]
          · left; simp [terminateProcess, hg, hp, hz, hs, ho]
        · left; simp [terminateProcess, hg, hp, hz, hs]

theorem terminateProcess_no_marker (o : Nat → PTermOutcome) (entry : String)
    (m : PerEntryManager) :
    (terminateProcess o entry m).2.2.filterMap termMarker = [] := by
  rcases terminateProcess_trace o entry m with h | h <;> rw [h] <;> rfl

theorem isProcessRunningPE_trace (alive : Nat → AliveStatus) (entry : String)
    (m : PerEntryManager) :
    (isProcessRunningPE alive entry m).2.2 = []
    ∨ (isProcessRunningPE alive entry m).2.2 = [PAction.processStopped entry] := by
  cases hg : dictGet? entry m.managed_processes with
  | none => left; simp [isProcessRunningPE, hg]
  | some mp =>
    cases hp : mp.pid with
    | none => left; simp [isProcessRunningPE, hg, hp]
    | some pid =>
      by_cases hz : pid = 0
      · left; simp [isProcessRunningPE, hg, hp, hz]
      · by_cases hs : mp.state = ProcessState.running
        · cases ha : alive pid
          · left; simp [isProcessRunningPE, hg, hp, hz, hs, ha]
          · right; simp [isProcessRunningPE, hg, hp, hz, hs, ha]
          · left; simp [isProcessRunningPE, hg, hp, hz, hs, ha]
        · left; simp [isProcessRunningPE, hg, hp, hz, hs]

/-- The termination pass: its invocation markers are exactly the eligible
entries of the items walked, and every action it appends is a
termination-pass action. -/
theorem terminateMsfsDependentLoop_trace (o : Nat → PTermOutcome) :
    ∀ (items : List (String × ManagedProcess))
      (acc : PerEntryManager × List String × List PAction),
      (terminateMsfsDependentLoop o items acc).2.2.filterMap termMarker
        = acc.2.2.filterMap termMarker
          ++ (items.filter (fun item =>
              item.2.msfs_dependent && item.2.auto_terminate
                && item.2.state == ProcessState.running)).map (fun item => item.1)
      ∧ (∀ a ∈ (terminateMsfsDependentLoop o items acc).2.2,
          a ∈ acc.2.2 ∨ isTermAction a = true) := by
  intro items
  induction items with
  | nil =>
    intro acc
    exact ⟨by simp [terminateMsfsDependentLoop], fun a ha => Or.inl ha⟩
  | cons item rest ih =>
    intro acc
    by_cases hg : (item.2.msfs_dependent && item.2.auto_terminate
        && item.2.state == ProcessState.running) = true
    · have hred : terminateMsfsDependentLoop o (item :: rest) acc
          = terminateMsfsDependentLoop o rest
              ((terminateProcess o item.1 acc.1).2.1,
               (if (terminateProcess o item.1 acc.1).1 then acc.2.1 ++ [item.1] else acc.2.1),
               acc.2.2 ++ [PAction.terminateCall item.1]
                 ++ (terminateProcess o item.1 acc.1).2.2) := by
        simp [terminateMsfsDependentLoop, hg]
      rw [hred]
      have hi := ih ((terminateProcess o item.1 acc.1).2.1,
        (if (terminateProcess o item.1 acc.1).1 then acc.2.1 ++ [item.1] else acc.2.1),
        acc.2.2 ++ [PAction.terminateCall item.1] ++ (terminateProcess o item.1 acc.1).2.2)
      constructor
      · rw [hi.1]
        simp only [List.filterMap_append, terminateProcess_no_marker]
        simp only [List.filter_cons, hg, if_true]
        simp [termMarker]
      · intro a ha
        rcases hi.2 a ha with hin | hterm
        · simp only [List.mem_append] at hin
          rcases hin with (hin | hin) | hin
          · exact Or.inl hin
          · simp only [List.mem_singleton] at hin
            subst hin
            exact Or.inr rfl
          · rcases terminateProcess_trace o item.1 acc.1 with hsh | hsh
            · rw [hsh] at hin; cases hin
            · rw [hsh] at hin
              simp only [List.mem_singleton] at hin
              subst hin
              exact Or.inr rfl
        · exact Or.inr hterm
    · have hred : terminateMsfsDependentLoop o (item :: rest) acc
          = terminateMsfsDependentLoop o rest acc := by
        simp [terminateMsfsDependentLoop, hg]
      rw [hred]
      have hi := ih acc
      have hgf : (item.2.msfs_dependent && item.2.auto_terminate
          && item.2.state == ProcessState.running) = false := by
        cases hval : (item.2.msfs_dependent && item.2.auto_terminate
            && item.2.state == ProcessState.running)
        · rfl
        · exact absurd hval hg
      constructor
      · rw [hi.1]
        simp only [List.filter_cons, hgf]
        rfl
      · exact hi.2

/-- Every action appended by the bookkeeping loop is a bookkeeping
action. -/
theorem bookkeepLoopRec_trace (alive : Nat → AliveStatus) :
    ∀ (keys : List String) (acc : PerEntryManager × List PAction),
      ∀ a ∈ (bookkeepLoopRec alive keys acc).2, a ∈ acc.2 ∨ isBookAction a = true := by
  intro keys
  induction keys with
  | nil => intro acc a ha; exact Or.inl ha
  | cons k rest ih =>
    intro acc a ha
    have hred : bookkeepLoopRec alive (k :: rest) acc
        = bookkeepLoopRec alive rest
            ((isProcessRunningPE alive k acc.1).2.1,
             acc.2 ++ [PAction.bookkeep k] ++ (isProcessRunningPE alive k acc.1).2.2) := by
      simp [bookkeepLoopRec]
    rw [hred] at ha
    rcases ih _ a ha with hin | hbook
    · simp only [List.mem_append] at hin
      rcases hin with (hin | hin) | hin
      · exact Or.inl hin
      · simp only [List.mem_singleton] at hin
        subst hin
        exact Or.inr rfl
      · rcases isProcessRunningPE_trace alive k acc.1 with hsh | hsh
        · rw [hsh] at hin; cases hin
        · rw [hsh] at hin
          simp only [List.mem_singleton] at hin
          subst hin
          exact Or.inr rfl
    · exact Or.inr hbook

/-- In a list split into a book-free prefix and a termination-free suffix,
every termination action precedes every bookkeeping action. -/
theorem term_before_book_of_append (P Q : List PAction)
    (hP : ∀ a ∈ P, isBookAction a = false) (hQ : ∀ a ∈ Q, isTermAction a = false) :
    ∀ (i j : Nat) (x y : PAction), (P ++ Q)[i]? = some x → (P ++ Q)[j]? = some y →
      isTermAction x = true → isBookAction y = true → i < j := by
  intro i j x y hi hj hx hy
  have hiP : i < P.length := by
    by_contra hge
    push_neg at hge
    rw [List.getElem?_append_right hge] at hi
    have hmem : x ∈ Q := List.getElem?_mem hi
    rw [hQ x hmem] at hx
    cases hx
  have hjP : P.length ≤ j := by
    by_contra hlt
    push_neg at hlt
    rw [List.getElem?_append, if_pos hlt] at hj
    have hmem : y ∈ P := List.getElem?_mem hj
    rw [hP y hmem] at hy
    cases hy
  omega

/-! ## Claim C1 — termination within the stop-edge tick (corrected)

In `PerEntryProcessManager._monitor_loop` the claim holds as stated: the
stop edge triggers `terminate_msfs_dependent_processes()` synchronously,
before the per-entry bookkeeping of the same iteration and before the
sleep that ends it.  In `ProcessMonitor._monitor_loop`, however, the tick
performs no termination at all: the stop edge only emits the `sim_stopped`
signal, whose connected slot (`MainWindow.on_simulator_stopped`,
src/main.py line 176) runs on the GUI thread through a queued cross-thread
connection, outside the tick — the tick's own addon bookkeeping proceeds
immediately and the tracked pids are left untouched. -/

/-- C1 counterexample: a `ProcessMonitor` tick in which the simulator stop
edge is detected (`sim_stopped` is emitted) yet the tracked addon pid
survives the tick unchanged, while a completed termination pass would have
removed it — the termination pass does not complete within the tick. -/
theorem processMonitor_stop_edge_no_termination_in_tick :
    let st : MonitorState :=
      { sim_processes := [("FlightSimulator.exe", ⟨1, "FlightSimulator.exe", ""⟩)],
        addon_processes := [("A", [⟨7, "h.exe", "h.exe"⟩])],
        tracked_addon_paths := [("A", "h.exe")] }
    let r := processMonitorTick ["h.exe"] [⟨7, "h.exe", some "h.exe"⟩] [7] "MSFS2020" st
    Event.simStopped "FlightSimulator.exe" ∈ r.2
    ∧ r.1.addon_processes = [("A", [⟨7, "h.exe", "h.exe"⟩])]
    ∧ (terminateAddonProcesses (fun _ => TermOutcome.graceful) "A"
        st.addon_processes).1 = [("A", [])] := by decide

/-- C1 amended: in `PerEntryProcessManager._monitor_loop`, for every tick
in which a simulator stop edge is detected, every termination-pass action
precedes every bookkeeping action in the tick's trace, the pass covers
exactly the eligible (msfs-dependent, auto-terminate, running) entries of
the pre-tick state, and the tick ends after both; in `ProcessMonitor` the
tick merely emits `sim_stopped` and termination is left to the
cross-thread signal handler (see the counterexample). -/
theorem per_entry_termination_before_bookkeeping
    (snapNames : List String) (alive : Nat → AliveStatus) (o : Nat → PTermOutcome)
    (m : PerEntryManager)
    (hwas : m.msfs_was_running = true) (hnow : isMsfsRunning snapNames = false) :
    (∀ (i j : Nat) (x y : PAction),
        (perEntryTick snapNames alive o m).2[i]? = some x →
        (perEntryTick snapNames alive o m).2[j]? = some y →
        isTermAction x = true → isBookAction y = true → i < j)
    ∧ (perEntryTick snapNames alive o m).2.filterMap termMarker = eligibleEntries m
    ∧ (perEntryTick snapNames alive o m).2.getLast? = some PAction.tickEnd := by
  have htr : (perEntryTick snapNames alive o m).2
      = (PAction.msfsStatusChanged false :: (terminateMsfsDependent o m).2.2)
        ++ ((bookkeepLoop alive
              (({ (terminateMsfsDependent o m).1 with msfs_was_running := false
                 : PerEntryManager }).managed_processes.map (fun e => e.1))
              { (terminateMsfsDependent o m).1 with msfs_was_running := false }).2
            ++ [PAction.tickEnd]) := by
    simp only [perEntryTick, hnow, hwas]
    simp
  have hpass := terminateMsfsDependentLoop_trace o m.managed_processes (m, [], [])
  have hP : ∀ a ∈ PAction.msfsStatusChanged false :: (terminateMsfsDependent o m).2.2,
      isBookAction a = false := by
    intro a ha
    rcases List.mem_cons.mp ha with ha | ha
    · subst ha; rfl
    · rcases hpass.2 a ha with hin | hterm
      · cases hin
      · exact isTermAction_not_book a hterm
  have hQ : ∀ a ∈ (bookkeepLoop alive
        (({ (terminateMsfsDependent o m).1 with msfs_was_running := false
           : PerEntryManager }).managed_processes.map (fun e => e.1))
        { (terminateMsfsDependent o m).1 with msfs_was_running := false }).2
      ++ [PAction.tickEnd], isTermAction a = false := by
    intro a ha
    rcases List.mem_append.mp ha with ha | ha
    · rcases bookkeepLoopRec_trace alive _ _ a ha with hin | hbook
      · cases hin
      · exact isBookAction_not_term a hbook
    · simp only [List.mem_singleton] at ha
      subst ha
      rfl
  refine ⟨?_, ?_, ?_⟩
  · intro i j x y hi hj hx hy
    rw [htr] at hi hj
    exact term_before_book_of_append _ _ hP hQ i j x y hi hj hx hy
  · rw [htr]
    simp only [List.filterMap_append]
    have h1 : (PAction.msfsStatusChanged false
        :: (terminateMsfsDependent o m).2.2).filterMap termMarker
        = eligibleEntries m := by
      simp only [List.filterMap_cons, termMarker]
      unfold terminateMsfsDependent
      rw [hpass.1]
      simp [eligibleEntries]
    have h2 : ((bookkeepLoop alive
        (({ (terminateMsfsDependent o m).1 with msfs_was_running := false
           : PerEntryManager }).managed_processes.map (fun e => e.1))
        { (terminateMsfsDependent o m).1 with msfs_was_running := false }).2).filterMap
          termMarker = [] := by
      rw [List.filterMap_eq_nil_iff]
      intro a ha
      rcases bookkeepLoopRec_trace alive _ _ a ha with hin | hbook
      · cases hin
      · exact termMarker_none_of_book a hbook
    rw [h1, h2]
    simp [termMarker]
  · rw [htr, ← List.append_assoc]
    exact List.getLast?_concat _

/-- Witness for C1's amended theorem: a stop-edge tick over one eligible
running entry; its termination marker is the full eligible list and the
tick ends last. -/
theorem per_entry_termination_witness :
    c10m.msfs_was_running = true
    ∧ isMsfsRunning [] = false
    ∧ (perEntryTick [] (fun _ => AliveStatus.alive) (fun _ => PTermOutcome.graceful)
        c10m).2.filterMap termMarker = eligibleEntries c10m
    ∧ (perEntryTick [] (fun _ => AliveStatus.alive) (fun _ => PTermOutcome.graceful)
        c10m).2.getLast? = some PAction.tickEnd :=
  ⟨rfl, rfl,
   (per_entry_termination_before_bookkeeping [] (fun _ => AliveStatus.alive)
     (fun _ => PTermOutcome.graceful) c10m rfl rfl).2.1,
   (per_entry_termination_before_bookkeeping [] (fun _ => AliveStatus.alive)
     (fun _ => PTermOutcome.graceful) c10m rfl rfl).2.2⟩

end MSM
